import Mathlib

/-!
# Turn-based combat resolver: a shallow embedding of `TurnBasedCombat.cpp`

The C++ program keeps a roster `std::vector<FCombatant>`, a Mersenne-twister
generator and writes to `std::cout`.  The embedding makes all three explicit:

* the roster is a `List FCombatant`; a reference or pointer to a roster element
  (`FCombatant& Attacker`, `FCombatant* ChosenTarget`) is the element's index, so
  that the address comparison `&Target == &Attacker` is an index comparison;
* the generator is a stream of raw outcomes together with a cursor; one call
  `dist(RandomGenerator)` reads the outcome under the cursor, advances the
  cursor by one and maps the outcome into the closed range of the distribution
  (every value of the range is the image of some outcome);
* `std::cout` is a list of events, a turn line or a status block.

`int` is the 32-bit two's-complement integer: values are modelled by `Int` and
the two arithmetic operations of the program on `int`, the product of line 146
and the difference of line 111, are reduced modulo `2 ^ 32` into the range of
`int` (`intMul`, `intSub`), which is what the compiled program yields when a
result leaves that range.  `size_t` arithmetic (`Targets.size() - 1`) is
modelled modulo `2 ^ 64`.

Line 111 of the source writes `ChosenTarget.CurrentHP` on a pointer; the
embedding takes it as `ChosenTarget->CurrentHP`, the form used on the
right-hand side of the same assignment.
-/

set_option autoImplicit false

namespace TurnBasedCombat

/-! ## Data model (source lines 13-48) -/

/-- The two teams, `enum class ETeam`. -/
inductive ETeam where
  | Players
  | Enemies
deriving DecidableEq

/-- A combatant, `struct FCombatant`. -/
structure FCombatant where
  Name : String
  MaxHP : Int
  CurrentHP : Int
  MinDamage : Int
  MaxDamage : Int
  Team : ETeam
deriving DecidableEq

/-- Liveness, `FCombatant::IsAlive` (line 24): `CurrentHP > 0`. -/
def FCombatant.IsAlive (c : FCombatant) : Bool :=
  decide (c.CurrentHP > 0)

/-- The random generator: a stream of raw outcomes and the number of outcomes
already consumed. -/
structure RandomSource where
  stream : Nat → Nat
  pos : Nat

/-- One call of a `std::uniform_int_distribution<int>` over `[a, b]` on the
generator: the value drawn and the advanced generator. -/
def uniformInt (a b : Int) (g : RandomSource) : Int × RandomSource :=
  (a + (g.stream g.pos : Int) % (b - a + 1), { g with pos := g.pos + 1 })

/-- One call of a `std::uniform_int_distribution<size_t>` over `[a, b]`. -/
def uniformSize (a b : Nat) (g : RandomSource) : Nat × RandomSource :=
  (a + g.stream g.pos % (b - a + 1), { g with pos := g.pos + 1 })

/-- The `size_t` expression `n - 1`, computed modulo `2 ^ 64`. -/
def sizeMinusOne (n : Nat) : Nat :=
  (n + 2 ^ 64 - 1) % 2 ^ 64

/-- The value held by a 32-bit `int` for the integer `x`: `x` reduced modulo
`2 ^ 32` into `[-2 ^ 31, 2 ^ 31 - 1]`. -/
def wrapInt (x : Int) : Int :=
  (x + 2 ^ 31) % 2 ^ 32 - 2 ^ 31

/-- The product `a * b` computed in `int`. -/
def intMul (a b : Int) : Int :=
  wrapInt (a * b)

/-- The difference `a - b` computed in `int`. -/
def intSub (a b : Int) : Int :=
  wrapInt (a - b)

/-- The function `std::clamp(v, lo, hi)`. -/
def clamp (v lo hi : Int) : Int :=
  if v < lo then lo else if hi < v then hi else v

/-- What the program writes to `std::cout`: the line of a turn (line 112) or
the block of status lines of `LogStatus` (one row per combatant: name, team
text, current and maximal hit points). -/
inductive Event where
  | attack (attacker target : String) (damage : Int)
  | status (rows : List (String × String × Int × Int))
deriving DecidableEq

/-- The engine, `class FTurnBasedCombat`, together with the output written so
far. -/
structure FTurnBasedCombat where
  Combatants : List FCombatant
  RandomGenerator : RandomSource
  cout : List Event

/-- The roster built by the constructor (lines 55-62). -/
def initialRoster : List FCombatant :=
  [ ⟨"Player1", 100, 100, 8, 15, ETeam.Players⟩,
    ⟨"Enemy1", 120, 120, 10, 18, ETeam.Enemies⟩,
    ⟨"Player2", 100, 100, 8, 15, ETeam.Players⟩,
    ⟨"Enemy2", 120, 120, 10, 18, ETeam.Enemies⟩,
    ⟨"Player3", 100, 100, 8, 15, ETeam.Players⟩,
    ⟨"Enemy3", 120, 120, 10, 18, ETeam.Enemies⟩,
    ⟨"Player4", 100, 100, 8, 15, ETeam.Players⟩,
    ⟨"Enemy4", 120, 120, 10, 18, ETeam.Enemies⟩ ]

/-- The constructor `FTurnBasedCombat::FTurnBasedCombat` (line 50); the seed
taken from `std::random_device` is the generator given. -/
def FTurnBasedCombat.new (g : RandomSource) : FTurnBasedCombat :=
  { Combatants := initialRoster, RandomGenerator := g, cout := [] }

/-! ## Operations (source lines 65-164) -/

/-- The text of a team, `TeamToString` (line 161). -/
def TeamToString (Team : ETeam) : String :=
  if Team = ETeam.Players then "Players" else "Enemies"

/-- The loop of `IsTeamAlive` (lines 128-135) over a roster. -/
def teamAliveIn (TeamName : ETeam) : List FCombatant → Bool
  | [] => false
  | combatant :: rest =>
    if combatant.Team = TeamName && combatant.IsAlive then true
    else teamAliveIn TeamName rest

/-- Whether a team has a living member, `IsTeamAlive` (line 126). -/
def IsTeamAlive (s : FTurnBasedCombat) (TeamName : ETeam) : Bool :=
  teamAliveIn TeamName s.Combatants

/-- Critical-hit test, `IsCritical` (line 116): one draw over `[1, 20]`. -/
def IsCritical (g : RandomSource) : Bool × RandomSource :=
  let CriticalChance := (uniformInt 1 20 g).1
  if CriticalChance = 20 then (true, (uniformInt 1 20 g).2)
  else (false, (uniformInt 1 20 g).2)

/-- Damage of an attack, `CalculateDamage` (line 139): one draw over the
attacker's damage range, then the critical-hit test; on a critical hit the
draw is doubled by the `int` product of line 146. -/
def CalculateDamage (g : RandomSource) (Attacker : FCombatant) : Int × RandomSource :=
  let Damage := (uniformInt Attacker.MinDamage Attacker.MaxDamage g).1
  let g1 := (uniformInt Attacker.MinDamage Attacker.MaxDamage g).2
  if (IsCritical g1).1 then (intMul Damage 2, (IsCritical g1).2)
  else (Damage, (IsCritical g1).2)

/-- The target loop of `CombatantTurn` (lines 93-101): the roster is walked in
order, `j` being the index of the head of the part still to visit; the three
`continue` tests are applied in the order of the source and the indices that
pass are collected. -/
def collectTargets (attacker : Nat) (team : ETeam) : Nat → List FCombatant → List Nat
  | _, [] => []
  | j, Target :: rest =>
    if j = attacker then collectTargets attacker team (j + 1) rest
    else if Target.Team = team then collectTargets attacker team (j + 1) rest
    else if !Target.IsAlive then collectTargets attacker team (j + 1) rest
    else j :: collectTargets attacker team (j + 1) rest

/-- One turn, `CombatantTurn` (line 87), of the roster member at index
`attacker`: three draws are made, in the order of the source (base damage,
critical test, target index).  The `none` alternatives stand for an index
outside the roster or outside the target list; `CombatantTurn_attack` below
shows that they are not met once the target list is non-empty. -/
def CombatantTurn (s : FTurnBasedCombat) (attacker : Nat) : FTurnBasedCombat :=
  match s.Combatants[attacker]? with
  | none => s
  | some Attacker =>
    if !Attacker.IsAlive then s
    else
      let Targets := collectTargets attacker Attacker.Team 0 s.Combatants
      if Targets.isEmpty then s
      else
        let Damage := (CalculateDamage s.RandomGenerator Attacker).1
        let g1 := (CalculateDamage s.RandomGenerator Attacker).2
        let k := (uniformSize 0 (sizeMinusOne Targets.length) g1).1
        let g2 := (uniformSize 0 (sizeMinusOne Targets.length) g1).2
        match Targets[k]? with
        | none => s
        | some t =>
          match s.Combatants[t]? with
          | none => s
          | some ChosenTarget =>
            { Combatants := s.Combatants.set t
                { ChosenTarget with
                  CurrentHP :=
                    clamp (intSub ChosenTarget.CurrentHP Damage) 0 ChosenTarget.MaxHP }
              RandomGenerator := g2
              cout := s.cout ++ [Event.attack Attacker.Name ChosenTarget.Name Damage] }

/-- The status block, `LogStatus` (line 152). -/
def LogStatus (s : FTurnBasedCombat) : FTurnBasedCombat :=
  { s with
    cout := s.cout ++ [Event.status (s.Combatants.map fun combatant =>
      (combatant.Name, TeamToString combatant.Team, combatant.CurrentHP, combatant.MaxHP))] }

/-- The condition of the `while` loop of `RunCombat` (line 67). -/
def bothTeamsAlive (s : FTurnBasedCombat) : Bool :=
  IsTeamAlive s ETeam.Players && IsTeamAlive s ETeam.Enemies

/-- The `for` loop of `RunCombat` (lines 70-81): `n` roster positions remain,
the next one being `i`. -/
def roundLoop : Nat → Nat → FTurnBasedCombat → FTurnBasedCombat
  | 0, _, s => s
  | n + 1, i, s =>
    match s.Combatants[i]? with
    | none => s
    | some combatant =>
      if !combatant.IsAlive then roundLoop n (i + 1) s
      else
        let s1 := CombatantTurn s i
        if !IsTeamAlive s1 ETeam.Players || !IsTeamAlive s1 ETeam.Enemies then s1
        else roundLoop n (i + 1) s1

/-- The body of the `while` loop of `RunCombat` (lines 68-84): one round and
its status block. -/
def runRound (s : FTurnBasedCombat) : FTurnBasedCombat :=
  LogStatus (roundLoop s.Combatants.length 0 s)

/-- The combat, `RunCombat` (line 65), with a bound on the number of rounds:
`none` when the bound is used up with both teams still alive.  The result does
not depend on the bound once it is large enough (`RunCombat_more_fuel`). -/
def RunCombat : Nat → FTurnBasedCombat → Option FTurnBasedCombat
  | 0, s => if bothTeamsAlive s then none else some s
  | fuel + 1, s => if bothTeamsAlive s then RunCombat fuel (runRound s) else some s

/-- The engine after at most `k` iterations of the `while` loop of
`RunCombat`. -/
def afterRounds : Nat → FTurnBasedCombat → FTurnBasedCombat
  | 0, s => s
  | k + 1, s => if bothTeamsAlive s then afterRounds k (runRound s) else s

/-- The states of the combat life cycle. -/
inductive ECombatState where
  | InProgress
  | PlayersWin
  | EnemiesWin
deriving DecidableEq

/-- Modelled from the spec: the source never names the outcome of a combat; the
specification's transition rule does: with no living member in `Enemies` the
state is `PlayersWin`, else with no living member in `Players` it is
`EnemiesWin`, else the combat is in progress. -/
def combatState (s : FTurnBasedCombat) : ECombatState :=
  if !IsTeamAlive s ETeam.Enemies then ECombatState.PlayersWin
  else if !IsTeamAlive s ETeam.Players then ECombatState.EnemiesWin
  else ECombatState.InProgress

/-- A generator reading its outcomes from a list, then zeros. -/
def RandomSource.ofList (l : List Nat) : RandomSource :=
  { stream := fun i => l.getD i 0, pos := 0 }

/-- Sum of the current hit points of a roster. -/
def totalHP : List FCombatant → Int
  | [] => 0
  | c :: rest => c.CurrentHP + totalHP rest

/-- Every combatant of the roster has `0 <= CurrentHP <= MaxHP`. -/
def hpInRange (cs : List FCombatant) : Prop :=
  ∀ c ∈ cs, 0 ≤ c.CurrentHP ∧ c.CurrentHP ≤ c.MaxHP

instance (cs : List FCombatant) : Decidable (hpInRange cs) := by
  unfold hpInRange; infer_instance

/-- Every combatant of the roster has a `MaxHP` and a doubled `MaxDamage` that
fit `int`: with hit points within `[0, MaxHP]` and a damage range starting at 0
or above, no product of line 146 and no difference of line 111 leaves the range
of `int`. -/
def withinInt (cs : List FCombatant) : Prop :=
  ∀ c ∈ cs, c.MaxHP ≤ 2 ^ 31 - 1 ∧ 2 * c.MaxDamage ≤ 2 ^ 31 - 1

instance (cs : List FCombatant) : Decidable (withinInt cs) := by
  unfold withinInt; infer_instance

/-- Every combatant of the roster has `lo <= MinDamage <= MaxDamage`. -/
def damageFrom (lo : Int) (cs : List FCombatant) : Prop :=
  ∀ c ∈ cs, lo ≤ c.MinDamage ∧ c.MinDamage ≤ c.MaxDamage

instance (lo : Int) (cs : List FCombatant) : Decidable (damageFrom lo cs) := by
  unfold damageFrom; infer_instance

/-- The eligibility test in the words of the specification: the roster member
at index `j` is not the attacker, is not of the attacker's team and is alive. -/
def specEligible (cs : List FCombatant) (attacker : Nat) (team : ETeam) (j : Nat) : Bool :=
  match cs[j]? with
  | none => false
  | some T => decide (j ≠ attacker) && decide (T.Team ≠ team) && decide (T.CurrentHP > 0)

/-- A duel used as a worked example: a `Players` member dealing exactly 10 and
an `Enemies` member with 25 hit points dealing exactly 5; the generator yields
zeros (lowest base draw, critical draw 1, first target). -/
def duel : FTurnBasedCombat :=
  { Combatants := [⟨"Attacker", 30, 30, 10, 10, ETeam.Players⟩,
                   ⟨"Target", 25, 25, 5, 5, ETeam.Enemies⟩],
    RandomGenerator := RandomSource.ofList [],
    cout := [] }

/-- The fields of a combatant that the program never assigns: everything but
`CurrentHP`. -/
def FCombatant.fixedPart (c : FCombatant) : String × Int × Int × Int × ETeam :=
  (c.Name, c.MaxHP, c.MinDamage, c.MaxDamage, c.Team)

/-- Position by position, the hit points of the first roster are at most those
of the second, the two rosters having the same length. -/
def hpNotAbove (cs1 cs : List FCombatant) : Prop :=
  cs1.length = cs.length ∧
    ∀ (j : Nat) (c1 c : FCombatant), cs1[j]? = some c1 → cs[j]? = some c →
      c1.CurrentHP ≤ c.CurrentHP

/-- Whether an output event is a status block. -/
def Event.isStatus : Event → Bool
  | Event.status _ => true
  | Event.attack _ _ _ => false

/-- Whether an output event is the line of a turn. -/
def Event.isAttack : Event → Bool
  | Event.status _ => false
  | Event.attack _ _ _ => true

/-- The rows written by `LogStatus` for a roster (line 156): name, team text,
current and maximal hit points of every member, in roster order. -/
def statusRows (cs : List FCombatant) : List (String × String × Int × Int) :=
  cs.map fun combatant =>
    (combatant.Name, TeamToString combatant.Team, combatant.CurrentHP, combatant.MaxHP)

/-- The number of iterations of the `while` loop of `RunCombat` entered within
the first `k` tests of its condition. -/
def roundsStarted : Nat → FTurnBasedCombat → Nat
  | 0, _ => 0
  | k + 1, s => if bothTeamsAlive s then roundsStarted k (runRound s) + 1 else 0

/-- The status blocks expected from the first `k` iterations of the `while`
loop: for every round started, the rows of the roster as the round leaves
it. -/
def roundSnapshots : Nat → FTurnBasedCombat → List Event
  | 0, _ => []
  | k + 1, s =>
    if bothTeamsAlive s then
      Event.status (statusRows (runRound s).Combatants) :: roundSnapshots k (runRound s)
    else []

/-- The calls `CombatantTurn(combatant)` made by the `for` loop of `RunCombat`
(line 74), in order: the engine at the moment of the call and the position of
the attacker.  The recursion is that of `roundLoop`. -/
def roundCalls : Nat → Nat → FTurnBasedCombat → List (FTurnBasedCombat × Nat)
  | 0, _, _ => []
  | n + 1, i, s =>
    match s.Combatants[i]? with
    | none => []
    | some combatant =>
      if !combatant.IsAlive then roundCalls n (i + 1) s
      else
        let s1 := CombatantTurn s i
        if !IsTeamAlive s1 ETeam.Players || !IsTeamAlive s1 ETeam.Enemies then [(s, i)]
        else (s, i) :: roundCalls n (i + 1) s1

/-- The calls of `CombatantTurn` made by the first `k` iterations of the
`while` loop of `RunCombat`. -/
def combatCalls : Nat → FTurnBasedCombat → List (FTurnBasedCombat × Nat)
  | 0, _ => []
  | k + 1, s =>
    if bothTeamsAlive s then
      roundCalls s.Combatants.length 0 s ++ combatCalls k (runRound s)
    else []

/-- The target loop of `CombatantTurn` with the test of line 96
(`&Target == &Attacker`) left out. -/
def collectTargetsNoSelfCheck (team : ETeam) : Nat → List FCombatant → List Nat
  | _, [] => []
  | j, Target :: rest =>
    if Target.Team = team then collectTargetsNoSelfCheck team (j + 1) rest
    else if !Target.IsAlive then collectTargetsNoSelfCheck team (j + 1) rest
    else j :: collectTargetsNoSelfCheck team (j + 1) rest

/-- A call of `CombatantTurn` that attacks: it is made while both teams have a
living member, for a living roster member whose target list is not empty, and it
writes exactly one turn line, about one of the targets, after exactly three
draws. -/
def attackingCall (u : FTurnBasedCombat) (a : Nat) : Prop :=
  bothTeamsAlive u = true ∧
    ∃ (A T : FCombatant) (t : Nat), u.Combatants[a]? = some A ∧ A.IsAlive = true ∧
      collectTargets a A.Team 0 u.Combatants ≠ [] ∧
      t ∈ collectTargets a A.Team 0 u.Combatants ∧ u.Combatants[t]? = some T ∧
      (CombatantTurn u a).cout =
        u.cout ++ [Event.attack A.Name T.Name (CalculateDamage u.RandomGenerator A).1] ∧
      (CombatantTurn u a).RandomGenerator.pos = u.RandomGenerator.pos + 3

/-- A duel in which the doubled damage leaves the range of `int`: both members
deal exactly 2000000000 and the generator yields 19 for ever, so that every
attack is critical (critical draw 20). -/
def overflowDuel : FTurnBasedCombat :=
  { Combatants := [⟨"A", 100, 10, 2000000000, 2000000000, ETeam.Players⟩,
                   ⟨"B", 100, 10, 2000000000, 2000000000, ETeam.Enemies⟩],
    RandomGenerator := { stream := fun _ => 19, pos := 0 },
    cout := [] }

/-! ## Draws -/

theorem wrapInt_eq (x : Int) (h1 : -2 ^ 31 ≤ x) (h2 : x ≤ 2 ^ 31 - 1) : wrapInt x = x := by
  unfold wrapInt
  rw [Int.emod_eq_of_lt (by omega) (by omega)]
  omega

theorem wrapInt_range (x : Int) : -2 ^ 31 ≤ wrapInt x ∧ wrapInt x ≤ 2 ^ 31 - 1 := by
  unfold wrapInt
  have h1 := Int.emod_nonneg (x + 2 ^ 31) (show (2 : Int) ^ 32 ≠ 0 by norm_num)
  have h2 := Int.emod_lt_of_pos (x + 2 ^ 31) (show (0 : Int) < 2 ^ 32 by norm_num)
  constructor <;> omega


theorem uniformInt_snd (a b : Int) (g : RandomSource) :
    (uniformInt a b g).2 = { g with pos := g.pos + 1 } := rfl

theorem uniformSize_snd (a b : Nat) (g : RandomSource) :
    (uniformSize a b g).2 = { g with pos := g.pos + 1 } := rfl

theorem uniformInt_fst_ge (a b : Int) (g : RandomSource) (h : a ≤ b) :
    a ≤ (uniformInt a b g).1 := by
  have h1 : (0 : Int) ≤ (g.stream g.pos : Int) % (b - a + 1) :=
    Int.emod_nonneg _ (by omega)
  simp only [uniformInt]
  omega

theorem uniformInt_fst_le (a b : Int) (g : RandomSource) (h : a ≤ b) :
    (uniformInt a b g).1 ≤ b := by
  have h1 : (g.stream g.pos : Int) % (b - a + 1) < b - a + 1 :=
    Int.emod_lt_of_pos _ (by omega)
  simp only [uniformInt]
  omega

theorem IsCritical_snd (g : RandomSource) :
    (IsCritical g).2 = { g with pos := g.pos + 1 } := by
  simp only [IsCritical]
  split <;> rfl

theorem IsCritical_fst (g : RandomSource) :
    (IsCritical g).1 = decide ((uniformInt 1 20 g).1 = 20) := by
  simp only [IsCritical]
  split <;> simp_all

theorem CalculateDamage_snd (g : RandomSource) (A : FCombatant) :
    (CalculateDamage g A).2 = { g with pos := g.pos + 2 } := by
  simp only [CalculateDamage]
  split <;> simp [IsCritical_snd, uniformInt_snd]

theorem CalculateDamage_fst (g : RandomSource) (A : FCombatant) :
    (CalculateDamage g A).1 =
      if (IsCritical (uniformInt A.MinDamage A.MaxDamage g).2).1
      then intMul (uniformInt A.MinDamage A.MaxDamage g).1 2
      else (uniformInt A.MinDamage A.MaxDamage g).1 := by
  simp only [CalculateDamage]
  split <;> rfl

theorem sizeMinusOne_le (n : Nat) (h : 0 < n) : sizeMinusOne n ≤ n - 1 := by
  unfold sizeMinusOne
  have : n + 2 ^ 64 - 1 = (n - 1) + 2 ^ 64 := by omega
  rw [this, Nat.add_mod_right]
  exact Nat.mod_le _ _

theorem sizeMinusOne_eq (n : Nat) (h : 0 < n) (h2 : n ≤ 2 ^ 64) : sizeMinusOne n = n - 1 := by
  unfold sizeMinusOne
  have : n + 2 ^ 64 - 1 = (n - 1) + 2 ^ 64 := by omega
  rw [this, Nat.add_mod_right]
  exact Nat.mod_eq_of_lt (by omega)

theorem uniformSize_fst_le (b : Nat) (g : RandomSource) :
    (uniformSize 0 b g).1 ≤ b := by
  simp only [uniformSize]
  have := Nat.mod_lt (g.stream g.pos) (show 0 < b - 0 + 1 by omega)
  omega

theorem mem_collectTargets (a : Nat) (team : ETeam) (cs : List FCombatant) :
    ∀ (j t : Nat), t ∈ collectTargets a team j cs ↔
      j ≤ t ∧ t ≠ a ∧ ∃ T, cs[t - j]? = some T ∧ T.Team ≠ team ∧ T.IsAlive = true := by
  induction cs with
  | nil => intro j t; simp [collectTargets]
  | cons c rest ih =>
    intro j t
    have key : ∀ t, t ∈ collectTargets a team (j + 1) rest ↔
        j ≤ t ∧ t ≠ j ∧ t ≠ a ∧ ∃ T, (c :: rest)[t - j]? = some T ∧ T.Team ≠ team ∧ T.IsAlive = true := by
      intro t
      rw [ih (j + 1) t]
      constructor
      · rintro ⟨h1, h2, T, h3, h4⟩
        refine ⟨by omega, by omega, h2, T, ?_, h4⟩
        have : t - j = (t - (j + 1)) + 1 := by omega
        rw [this, List.getElem?_cons_succ]; exact h3
      · rintro ⟨h1, h1', h2, T, h3, h4⟩
        refine ⟨by omega, h2, T, ?_, h4⟩
        have : t - j = (t - (j + 1)) + 1 := by omega
        rw [this, List.getElem?_cons_succ] at h3; exact h3
    unfold collectTargets
    by_cases hja : j = a
    · rw [if_pos hja, key]
      constructor
      · rintro ⟨h1, _, h2⟩; exact ⟨h1, h2⟩
      · rintro ⟨h1, h2⟩; exact ⟨h1, by omega, h2⟩
    · rw [if_neg hja]
      by_cases hteam : c.Team = team
      · rw [if_pos hteam, key]
        constructor
        · rintro ⟨h1, _, h2⟩; exact ⟨h1, h2⟩
        · rintro ⟨h1, h2, T, h3, h4, h5⟩
          refine ⟨h1, ?_, h2, T, h3, h4, h5⟩
          rintro rfl
          simp at h3; subst h3; exact h4 hteam
      · rw [if_neg hteam]
        by_cases hal : c.IsAlive = true
        · simp only [hal, Bool.not_true, Bool.false_eq_true, if_false, List.mem_cons, key]
          constructor
          · rintro (rfl | ⟨h1, _, h2⟩)
            · exact ⟨le_refl _, hja, c, by simp, hteam, hal⟩
            · exact ⟨h1, h2⟩
          · rintro ⟨h1, h2⟩
            by_cases htj : t = j
            · exact Or.inl htj
            · exact Or.inr ⟨h1, htj, h2⟩
        · simp only [Bool.not_eq_true] at hal
          simp only [hal, Bool.not_false, if_true, key]
          constructor
          · rintro ⟨h1, _, h2⟩; exact ⟨h1, h2⟩
          · rintro ⟨h1, h2, T, h3, h4, h5⟩
            refine ⟨h1, ?_, h2, T, h3, h4, h5⟩
            rintro rfl
            simp at h3; subst h3; rw [hal] at h5; exact absurd h5 (by simp)


theorem collectTargets_getElem? (a : Nat) (team : ETeam) (cs : List FCombatant) (t : Nat)
    (h : t ∈ collectTargets a team 0 cs) :
    t ≠ a ∧ ∃ T, cs[t]? = some T ∧ T.Team ≠ team ∧ T.IsAlive = true := by
  have := (mem_collectTargets a team cs 0 t).1 h
  simpa using this.2

theorem chosen_index_lt (l : List Nat) (g : RandomSource) (h : l ≠ []) :
    (uniformSize 0 (sizeMinusOne l.length) g).1 < l.length := by
  have hpos : 0 < l.length := List.length_pos.2 h
  have h1 := uniformSize_fst_le (sizeMinusOne l.length) g
  have h2 := sizeMinusOne_le l.length hpos
  omega

theorem CombatantTurn_attack (s : FTurnBasedCombat) (a : Nat) (A : FCombatant)
    (hA : s.Combatants[a]? = some A) (halive : A.IsAlive = true)
    (hne : collectTargets a A.Team 0 s.Combatants ≠ []) :
    ∃ t T, (collectTargets a A.Team 0 s.Combatants)[(uniformSize 0
          (sizeMinusOne (collectTargets a A.Team 0 s.Combatants).length)
          (CalculateDamage s.RandomGenerator A).2).1]? = some t ∧
      s.Combatants[t]? = some T ∧
      CombatantTurn s a =
        { Combatants := s.Combatants.set t
            { T with CurrentHP :=
                clamp (intSub T.CurrentHP (CalculateDamage s.RandomGenerator A).1) 0 T.MaxHP },
          RandomGenerator := { s.RandomGenerator with pos := s.RandomGenerator.pos + 3 },
          cout := s.cout ++ [Event.attack A.Name T.Name (CalculateDamage s.RandomGenerator A).1] } := by
  have hlt := chosen_index_lt _ (CalculateDamage s.RandomGenerator A).2 hne
  obtain ⟨t, ht⟩ : ∃ t, (collectTargets a A.Team 0 s.Combatants)[(uniformSize 0
          (sizeMinusOne (collectTargets a A.Team 0 s.Combatants).length)
          (CalculateDamage s.RandomGenerator A).2).1]? = some t :=
    ⟨_, List.getElem?_eq_getElem hlt⟩
  have hmem : t ∈ collectTargets a A.Team 0 s.Combatants := List.getElem?_mem ht
  obtain ⟨_, T, hT, _⟩ := collectTargets_getElem? _ _ _ _ hmem
  refine ⟨t, T, ht, hT, ?_⟩
  have hemp : (collectTargets a A.Team 0 s.Combatants).isEmpty = false := by
    cases hc : collectTargets a A.Team 0 s.Combatants with
    | nil => exact absurd hc hne
    | cons x xs => rfl
  unfold CombatantTurn
  simp only [hA, halive, hemp, ht, hT, Bool.not_true, Bool.false_eq_true, if_false]
  simp only [uniformSize_snd, CalculateDamage_snd]

theorem CombatantTurn_cases (s : FTurnBasedCombat) (a : Nat) :
    CombatantTurn s a = s ∨
    ∃ A t T, s.Combatants[a]? = some A ∧ A.IsAlive = true ∧
      t ∈ collectTargets a A.Team 0 s.Combatants ∧ s.Combatants[t]? = some T ∧
      CombatantTurn s a =
        { Combatants := s.Combatants.set t
            { T with CurrentHP :=
                clamp (intSub T.CurrentHP (CalculateDamage s.RandomGenerator A).1) 0 T.MaxHP },
          RandomGenerator := { s.RandomGenerator with pos := s.RandomGenerator.pos + 3 },
          cout := s.cout ++ [Event.attack A.Name T.Name (CalculateDamage s.RandomGenerator A).1] } := by
  cases hA : s.Combatants[a]? with
  | none => left; unfold CombatantTurn; simp only [hA]
  | some A =>
    by_cases halive : A.IsAlive = true
    · by_cases hne : collectTargets a A.Team 0 s.Combatants = []
      · left; unfold CombatantTurn; simp [hA, halive, hne]
      · right
        obtain ⟨t, T, ht, hT, heq⟩ := CombatantTurn_attack s a A hA halive hne
        exact ⟨A, t, T, rfl, halive, List.getElem?_mem ht, hT, heq⟩
    · left; unfold CombatantTurn; simp [hA, halive]

/-! ## Loops -/

theorem roundLoop_none (n i : Nat) (s : FTurnBasedCombat) (h : s.Combatants[i]? = none) :
    roundLoop (n + 1) i s = s := by
  simp only [roundLoop, h]

theorem roundLoop_dead (n i : Nat) (s : FTurnBasedCombat) (c : FCombatant)
    (h : s.Combatants[i]? = some c) (hc : c.IsAlive = false) :
    roundLoop (n + 1) i s = roundLoop n (i + 1) s := by
  simp only [roundLoop, h, hc, Bool.not_false, if_true]

theorem roundLoop_break (n i : Nat) (s : FTurnBasedCombat) (c : FCombatant)
    (h : s.Combatants[i]? = some c) (hc : c.IsAlive = true)
    (hb : bothTeamsAlive (CombatantTurn s i) = false) :
    roundLoop (n + 1) i s = CombatantTurn s i := by
  have hb2 : (!IsTeamAlive (CombatantTurn s i) ETeam.Players ||
      !IsTeamAlive (CombatantTurn s i) ETeam.Enemies) = true := by
    unfold bothTeamsAlive at hb
    revert hb
    cases IsTeamAlive (CombatantTurn s i) ETeam.Players <;>
      cases IsTeamAlive (CombatantTurn s i) ETeam.Enemies <;> simp
  simp only [roundLoop, h, hc, Bool.not_true, Bool.false_eq_true, if_false, hb2, if_true]

theorem roundLoop_continue (n i : Nat) (s : FTurnBasedCombat) (c : FCombatant)
    (h : s.Combatants[i]? = some c) (hc : c.IsAlive = true)
    (hb : bothTeamsAlive (CombatantTurn s i) = true) :
    roundLoop (n + 1) i s = roundLoop n (i + 1) (CombatantTurn s i) := by
  have hb2 : (!IsTeamAlive (CombatantTurn s i) ETeam.Players ||
      !IsTeamAlive (CombatantTurn s i) ETeam.Enemies) = false := by
    unfold bothTeamsAlive at hb
    revert hb
    cases IsTeamAlive (CombatantTurn s i) ETeam.Players <;>
      cases IsTeamAlive (CombatantTurn s i) ETeam.Enemies <;> simp
  simp only [roundLoop, h, hc, Bool.not_true, Bool.false_eq_true, if_false, hb2]

theorem roundLoop_induct (P : FTurnBasedCombat → Prop)
    (hturn : ∀ s a, P s → P (CombatantTurn s a)) :
    ∀ (n i : Nat) (s : FTurnBasedCombat), P s → P (roundLoop n i s) := by
  intro n
  induction n with
  | zero => intro i s hs; exact hs
  | succ n ih =>
    intro i s hs
    cases h : s.Combatants[i]? with
    | none => rw [roundLoop_none n i s h]; exact hs
    | some c =>
      cases hc : c.IsAlive with
      | false => rw [roundLoop_dead n i s c h hc]; exact ih _ _ hs
      | true =>
        cases hb : bothTeamsAlive (CombatantTurn s i) with
        | false => rw [roundLoop_break n i s c h hc hb]; exact hturn _ _ hs
        | true => rw [roundLoop_continue n i s c h hc hb]; exact ih _ _ (hturn _ _ hs)

theorem afterRounds_induct (P : FTurnBasedCombat → Prop)
    (hturn : ∀ s a, P s → P (CombatantTurn s a)) (hlog : ∀ s, P s → P (LogStatus s)) :
    ∀ (k : Nat) (s : FTurnBasedCombat), P s → P (afterRounds k s) := by
  intro k
  induction k with
  | zero => intro s hs; exact hs
  | succ k ih =>
    intro s hs
    unfold afterRounds
    split
    · exact ih _ (hlog _ (roundLoop_induct P hturn _ _ _ hs))
    · exact hs

theorem RunCombat_eq_afterRounds :
    ∀ (fuel : Nat) (s : FTurnBasedCombat),
      RunCombat fuel s =
        if bothTeamsAlive (afterRounds fuel s) then none else some (afterRounds fuel s) := by
  intro fuel
  induction fuel with
  | zero => intro s; rfl
  | succ fuel ih =>
    intro s
    unfold RunCombat afterRounds
    by_cases h : bothTeamsAlive s = true
    · simp only [h, if_true]; exact ih _
    · simp only [h, if_false]; simp only [Bool.not_eq_true] at h; simp [h]

theorem RunCombat_some (fuel : Nat) (s s1 : FTurnBasedCombat) (h : RunCombat fuel s = some s1) :
    s1 = afterRounds fuel s ∧ bothTeamsAlive s1 = false := by
  rw [RunCombat_eq_afterRounds] at h
  cases hb : bothTeamsAlive (afterRounds fuel s) with
  | true => rw [hb] at h; simp at h
  | false =>
    rw [hb] at h
    simp only [Bool.false_eq_true, if_false, Option.some.injEq] at h
    subst h
    exact ⟨rfl, hb⟩

/-! ## The range invariant of hit points -/

theorem clamp_ge (v lo hi : Int) (h : lo ≤ hi) : lo ≤ clamp v lo hi := by
  unfold clamp; split_ifs <;> omega

theorem clamp_le (v lo hi : Int) (h : lo ≤ hi) : clamp v lo hi ≤ hi := by
  unfold clamp; split_ifs <;> omega

theorem hpInRange_CombatantTurn (s : FTurnBasedCombat) (a : Nat)
    (h : hpInRange s.Combatants) : hpInRange (CombatantTurn s a).Combatants := by
  rcases CombatantTurn_cases s a with heq | ⟨A, t, T, _, _, _, hT, heq⟩
  · rw [heq]; exact h
  · rw [heq]
    intro c hc
    rcases List.mem_or_eq_of_mem_set hc with hc | hc
    · exact h c hc
    · have hT2 := h T (List.getElem?_mem hT)
      subst hc
      exact ⟨clamp_ge _ _ _ (by omega), clamp_le _ _ _ (by omega)⟩

/-- Claim C1 (range invariant of hit points): in a roster where every combatant
has `0 <= CurrentHP <= MaxHP`, this still holds after a turn of any roster
member, at every point of a round, after any number of rounds, at every point
of any later round, and in the final state of `RunCombat`, whatever the
generator yields. -/
theorem C1_hp_range_invariant (s : FTurnBasedCombat) (h : hpInRange s.Combatants) :
    (∀ a, hpInRange (CombatantTurn s a).Combatants) ∧
    (∀ n i, hpInRange (roundLoop n i s).Combatants) ∧
    (∀ k n i, hpInRange (roundLoop n i (afterRounds k s)).Combatants) ∧
    (∀ k, hpInRange (afterRounds k s).Combatants) ∧
    (∀ fuel s1, RunCombat fuel s = some s1 → hpInRange s1.Combatants) := by
  have hturn : ∀ s a, hpInRange s.Combatants → hpInRange (CombatantTurn s a).Combatants :=
    hpInRange_CombatantTurn
  have hround := roundLoop_induct (fun s => hpInRange s.Combatants) hturn
  have hafter := afterRounds_induct (fun s => hpInRange s.Combatants) hturn (fun _ hs => hs)
  refine ⟨fun a => hturn s a h, fun n i => hround n i s h,
    fun k n i => hround n i _ (hafter k s h), fun k => hafter k s h, ?_⟩
  intro fuel s1 hrun
  rw [(RunCombat_some fuel s s1 hrun).1]
  exact hafter fuel s h

/-- Instance of C1 on the roster of the constructor. -/
theorem C1_hp_range_invariant_witness :
    hpInRange (FTurnBasedCombat.new (RandomSource.ofList [5, 19, 2])).Combatants ∧
    ((∀ a, hpInRange
        (CombatantTurn (FTurnBasedCombat.new (RandomSource.ofList [5, 19, 2])) a).Combatants) ∧
    (∀ n i, hpInRange
        (roundLoop n i (FTurnBasedCombat.new (RandomSource.ofList [5, 19, 2]))).Combatants) ∧
    (∀ k n i, hpInRange (roundLoop n i
        (afterRounds k (FTurnBasedCombat.new (RandomSource.ofList [5, 19, 2])))).Combatants) ∧
    (∀ k, hpInRange
        (afterRounds k (FTurnBasedCombat.new (RandomSource.ofList [5, 19, 2]))).Combatants) ∧
    (∀ fuel s1, RunCombat fuel (FTurnBasedCombat.new (RandomSource.ofList [5, 19, 2])) = some s1 →
        hpInRange s1.Combatants)) :=
  ⟨by decide, C1_hp_range_invariant _ (by decide)⟩

/-! ## Target selection -/

theorem collectTargets_pairwise (a : Nat) (team : ETeam) (cs : List FCombatant) :
    ∀ j, (collectTargets a team j cs).Pairwise (· < ·) := by
  induction cs with
  | nil => intro j; simp [collectTargets]
  | cons c rest ih =>
    intro j
    unfold collectTargets
    split_ifs
    · exact ih _
    · exact ih _
    · exact ih _
    · refine List.pairwise_cons.2 ⟨?_, ih _⟩
      intro t ht
      have := ((mem_collectTargets a team rest (j + 1) t).1 ht).1
      omega

theorem mem_collectTargets_zero (a : Nat) (team : ETeam) (cs : List FCombatant) (j : Nat) :
    j ∈ collectTargets a team 0 cs ↔
      j ≠ a ∧ ∃ T, cs[j]? = some T ∧ T.Team ≠ team ∧ 0 < T.CurrentHP := by
  rw [mem_collectTargets]
  simp [FCombatant.IsAlive]

theorem mem_filter_specEligible (a : Nat) (team : ETeam) (cs : List FCombatant) (j : Nat) :
    j ∈ (List.range cs.length).filter (specEligible cs a team) ↔
      j ≠ a ∧ ∃ T, cs[j]? = some T ∧ T.Team ≠ team ∧ 0 < T.CurrentHP := by
  rw [List.mem_filter, List.mem_range]
  unfold specEligible
  constructor
  · rintro ⟨hlt, h⟩
    cases hT : cs[j]? with
    | none => rw [hT] at h; simp at h
    | some T =>
      rw [hT] at h
      simp only [Bool.and_eq_true, decide_eq_true_eq] at h
      exact ⟨h.1.1, T, rfl, h.1.2, h.2⟩
  · rintro ⟨hja, T, hT, hteam, hhp⟩
    refine ⟨(List.getElem?_eq_some.1 hT).1, ?_⟩
    rw [hT]
    simp [hja, hteam, hhp]

theorem collectTargets_eq_filter (a : Nat) (team : ETeam) (cs : List FCombatant) :
    collectTargets a team 0 cs = (List.range cs.length).filter (specEligible cs a team) := by
  have hs1 : (collectTargets a team 0 cs).Sorted (· < ·) := collectTargets_pairwise a team cs 0
  have hs2 : ((List.range cs.length).filter (specEligible cs a team)).Sorted (· < ·) :=
    List.Pairwise.filter _ (List.pairwise_lt_range _)
  refine List.eq_of_perm_of_sorted ?_ hs1 hs2
  refine (List.perm_ext_iff_of_nodup hs1.nodup hs2.nodup).2 ?_
  intro j
  rw [mem_collectTargets_zero, mem_filter_specEligible]

/-- Claim C2 (target eligibility): for an attacker `A` at index `a` of the
roster, the target list built by `CombatantTurn` is the list of the roster
indices, in increasing order and without repetition, of the members that are
not the attacker, are not of the attacker's team and have `CurrentHP > 0`.  For a
`Players` attacker every target is a living `Enemies` member other than the
attacker; in the roster made of a `Players` attacker, a living enemy, a second
player, a dead enemy and a second living enemy, the targets are exactly the two
living enemies. -/
theorem C2_target_eligibility (cs : List FCombatant) (a : Nat) (A : FCombatant)
    (hA : cs[a]? = some A) :
    collectTargets a A.Team 0 cs = (List.range cs.length).filter (specEligible cs a A.Team) ∧
    (∀ j, j ∈ collectTargets a A.Team 0 cs ↔
      j ≠ a ∧ ∃ T, cs[j]? = some T ∧ T.Team ≠ A.Team ∧ 0 < T.CurrentHP) ∧
    (collectTargets a A.Team 0 cs).Pairwise (· < ·) ∧
    (A.Team = ETeam.Players → ∀ j ∈ collectTargets a A.Team 0 cs,
      j ≠ a ∧ ∃ T, cs[j]? = some T ∧ T.Team = ETeam.Enemies ∧ 0 < T.CurrentHP) ∧
    (∀ e1 p e3 e2 : FCombatant, cs = [A, e1, p, e3, e2] → a = 0 →
      A.Team = ETeam.Players → p.Team = ETeam.Players →
      e1.Team = ETeam.Enemies → e2.Team = ETeam.Enemies → e3.Team = ETeam.Enemies →
      0 < e1.CurrentHP → 0 < e2.CurrentHP → e3.CurrentHP ≤ 0 →
      collectTargets a A.Team 0 cs = [1, 4]) := by
  refine ⟨collectTargets_eq_filter a A.Team cs, mem_collectTargets_zero a A.Team cs,
    collectTargets_pairwise a A.Team cs 0, ?_, ?_⟩
  · intro hP j hj
    obtain ⟨h1, T, h2, h3, h4⟩ := (mem_collectTargets_zero a A.Team cs j).1 hj
    refine ⟨h1, T, h2, ?_, h4⟩
    rw [hP] at h3
    cases hT : T.Team with
    | Players => exact absurd hT h3
    | Enemies => rfl
  · intro e1 p e3 e2 hcs ha hAP hp he1 he2 he3 h1 h2 h3
    subst hcs ha
    have h3' : ¬ (0 < e3.CurrentHP) := by omega
    simp [collectTargets, hAP, hp, he1, he2, he3, FCombatant.IsAlive, h1, h2, h3']


/-- Instance of C2: a `Players` attacker, a living enemy, a second player, a
dead enemy and a second living enemy; the targets are the two living enemies. -/
theorem C2_target_eligibility_witness :
    ([⟨"P1", 10, 10, 1, 2, ETeam.Players⟩, ⟨"E1", 10, 7, 1, 2, ETeam.Enemies⟩,
      ⟨"P2", 10, 10, 1, 2, ETeam.Players⟩, ⟨"E2", 10, 0, 1, 2, ETeam.Enemies⟩,
      ⟨"E3", 10, 1, 1, 2, ETeam.Enemies⟩] : List FCombatant)[0]? =
        some ⟨"P1", 10, 10, 1, 2, ETeam.Players⟩ ∧
    collectTargets 0 ETeam.Players 0
      [⟨"P1", 10, 10, 1, 2, ETeam.Players⟩, ⟨"E1", 10, 7, 1, 2, ETeam.Enemies⟩,
       ⟨"P2", 10, 10, 1, 2, ETeam.Players⟩, ⟨"E2", 10, 0, 1, 2, ETeam.Enemies⟩,
       ⟨"E3", 10, 1, 1, 2, ETeam.Enemies⟩] = [1, 4] :=
  ⟨by decide,
    (C2_target_eligibility
      [⟨"P1", 10, 10, 1, 2, ETeam.Players⟩, ⟨"E1", 10, 7, 1, 2, ETeam.Enemies⟩,
       ⟨"P2", 10, 10, 1, 2, ETeam.Players⟩, ⟨"E2", 10, 0, 1, 2, ETeam.Enemies⟩,
       ⟨"E3", 10, 1, 1, 2, ETeam.Enemies⟩] 0 ⟨"P1", 10, 10, 1, 2, ETeam.Players⟩
      (by decide)).2.2.2.2 _ _ _ _ rfl rfl rfl rfl rfl rfl rfl
        (by decide) (by decide) (by decide)⟩

/-! ## Damage -/

theorem uniformInt_ofList_fst (a b v : Int) (rest : List Nat) (h1 : a ≤ v) (h2 : v ≤ b) :
    (uniformInt a b (RandomSource.ofList ((v - a).toNat :: rest))).1 = v := by
  simp only [uniformInt, RandomSource.ofList, List.getD_cons_zero]
  have h3 : ((v - a).toNat : Int) = v - a := Int.toNat_of_nonneg (by omega)
  rw [h3, Int.emod_eq_of_lt (by omega) (by omega)]
  omega

theorem uniformInt_ofList_snd_fst (a b c d w : Int) (r : Nat) (rest : List Nat)
    (h1 : c ≤ w) (h2 : w ≤ d) :
    (uniformInt c d (uniformInt a b (RandomSource.ofList (r :: (w - c).toNat :: rest))).2).1 = w := by
  simp only [uniformInt, RandomSource.ofList, List.getD_cons_succ, List.getD_cons_zero]
  have h3 : ((w - c).toNat : Int) = w - c := Int.toNat_of_nonneg (by omega)
  rw [h3, Int.emod_eq_of_lt (by omega) (by omega)]
  omega

theorem intMul_two_eq (d : Int) (h1 : -2 ^ 31 ≤ 2 * d) (h2 : 2 * d ≤ 2 ^ 31 - 1) :
    intMul d 2 = 2 * d := by
  unfold intMul
  rw [wrapInt_eq (d * 2) (by omega) (by omega)]
  omega

theorem intSub_eq (a b : Int) (h1 : -2 ^ 31 ≤ a - b) (h2 : a - b ≤ 2 ^ 31 - 1) :
    intSub a b = a - b :=
  wrapInt_eq _ h1 h2

/-- Bounds of the damage of an attacker whose doubled `MaxDamage` fits `int`. -/
theorem CalculateDamage_ge (g : RandomSource) (A : FCombatant) (lo : Int) (h0 : 0 ≤ lo)
    (h1 : lo ≤ A.MinDamage) (h2 : A.MinDamage ≤ A.MaxDamage)
    (hfit : 2 * A.MaxDamage ≤ 2 ^ 31 - 1) :
    lo ≤ (CalculateDamage g A).1 ∧ (CalculateDamage g A).1 ≤ 2 ^ 31 - 1 := by
  have hb1 := uniformInt_fst_ge A.MinDamage A.MaxDamage g h2
  have hb2 := uniformInt_fst_le A.MinDamage A.MaxDamage g h2
  rw [CalculateDamage_fst]
  split
  · rw [intMul_two_eq _ (by omega) (by omega)]
    constructor <;> omega
  · constructor <;> omega

/-- Claim C3 (damage bounds, amended): for an attacker with
`0 <= MinDamage <= MaxDamage` and every generator, the base draw lies in
`[MinDamage, MaxDamage]`, the critical draw in `[1, 20]`, and a result that is
not critical lies in `[MinDamage, MaxDamage]`; when the double of `MaxDamage`
fits a 32-bit `int` (`2 * MaxDamage <= 2 ^ 31 - 1`), `CalculateDamage` returns a
non-negative value and a critical result lies in
`[2 * MinDamage, 2 * MaxDamage]`; for the range `8..15` the results lie in
`[8, 15]` and `[16, 30]`.  Every pair of a base draw and a critical draw within
their ranges is produced by some generator. -/
theorem C3_damage_bounds (A : FCombatant) (h0 : 0 ≤ A.MinDamage)
    (h1 : A.MinDamage ≤ A.MaxDamage) :
    (∀ g : RandomSource,
      (A.MinDamage ≤ (uniformInt A.MinDamage A.MaxDamage g).1 ∧
        (uniformInt A.MinDamage A.MaxDamage g).1 ≤ A.MaxDamage) ∧
      (1 ≤ (uniformInt 1 20 (uniformInt A.MinDamage A.MaxDamage g).2).1 ∧
        (uniformInt 1 20 (uniformInt A.MinDamage A.MaxDamage g).2).1 ≤ 20) ∧
      ((IsCritical (uniformInt A.MinDamage A.MaxDamage g).2).1 = false →
        A.MinDamage ≤ (CalculateDamage g A).1 ∧ (CalculateDamage g A).1 ≤ A.MaxDamage) ∧
      (2 * A.MaxDamage ≤ 2 ^ 31 - 1 → 0 ≤ (CalculateDamage g A).1) ∧
      (2 * A.MaxDamage ≤ 2 ^ 31 - 1 →
        (IsCritical (uniformInt A.MinDamage A.MaxDamage g).2).1 = true →
        2 * A.MinDamage ≤ (CalculateDamage g A).1 ∧
          (CalculateDamage g A).1 ≤ 2 * A.MaxDamage) ∧
      (A.MinDamage = 8 → A.MaxDamage = 15 →
        ((IsCritical (uniformInt A.MinDamage A.MaxDamage g).2).1 = false →
          8 ≤ (CalculateDamage g A).1 ∧ (CalculateDamage g A).1 ≤ 15) ∧
        ((IsCritical (uniformInt A.MinDamage A.MaxDamage g).2).1 = true →
          16 ≤ (CalculateDamage g A).1 ∧ (CalculateDamage g A).1 ≤ 30))) ∧
    (∀ v w : Int, A.MinDamage ≤ v → v ≤ A.MaxDamage → 1 ≤ w → w ≤ 20 →
      ∃ g : RandomSource, (uniformInt A.MinDamage A.MaxDamage g).1 = v ∧
        (uniformInt 1 20 (uniformInt A.MinDamage A.MaxDamage g).2).1 = w) := by
  constructor
  · intro g
    have hb1 := uniformInt_fst_ge A.MinDamage A.MaxDamage g h1
    have hb2 := uniformInt_fst_le A.MinDamage A.MaxDamage g h1
    have hc1 := uniformInt_fst_ge 1 20 (uniformInt A.MinDamage A.MaxDamage g).2 (by norm_num)
    have hc2 := uniformInt_fst_le 1 20 (uniformInt A.MinDamage A.MaxDamage g).2 (by norm_num)
    have hdouble : 2 * A.MaxDamage ≤ 2 ^ 31 - 1 →
        intMul (uniformInt A.MinDamage A.MaxDamage g).1 2 =
          2 * (uniformInt A.MinDamage A.MaxDamage g).1 :=
      fun hfit => intMul_two_eq _ (by omega) (by omega)
    rw [CalculateDamage_fst]
    cases hcrit : (IsCritical (uniformInt A.MinDamage A.MaxDamage g).2).1 with
    | false =>
      simp only [Bool.false_eq_true, if_false]
      refine ⟨⟨hb1, hb2⟩, ⟨hc1, hc2⟩, fun _ => ⟨hb1, hb2⟩, fun _ => by omega,
        fun _ h => absurd h (by decide), fun h8 h15 => ⟨fun _ => by omega,
        fun h => absurd h (by decide)⟩⟩
    | true =>
      simp only [if_true]
      refine ⟨⟨hb1, hb2⟩, ⟨hc1, hc2⟩, fun h => absurd h (by decide),
        fun hfit => by rw [hdouble hfit]; omega,
        fun hfit _ => by rw [hdouble hfit]; constructor <;> omega,
        fun h8 h15 => ⟨fun h => absurd h (by decide), fun _ => ?_⟩⟩
      rw [hdouble (by omega)]
      constructor <;> omega
  · intro v w hv1 hv2 hw1 hw2
    exact ⟨RandomSource.ofList [(v - A.MinDamage).toNat, (w - 1).toNat],
      uniformInt_ofList_fst _ _ _ _ hv1 hv2, uniformInt_ofList_snd_fst _ _ _ _ _ _ _ hw1 hw2⟩

/-- Instance of C3 on the first combatant of the constructor's roster. -/
theorem C3_damage_bounds_witness :
    (0 : Int) ≤ (FCombatant.mk "Player1" 100 100 8 15 ETeam.Players).MinDamage ∧
    (FCombatant.mk "Player1" 100 100 8 15 ETeam.Players).MinDamage ≤
      (FCombatant.mk "Player1" 100 100 8 15 ETeam.Players).MaxDamage ∧
    2 * (FCombatant.mk "Player1" 100 100 8 15 ETeam.Players).MaxDamage ≤ 2 ^ 31 - 1 ∧
    ∀ g : RandomSource,
      0 ≤ (CalculateDamage g (FCombatant.mk "Player1" 100 100 8 15 ETeam.Players)).1 :=
  ⟨by decide, by decide, by decide, fun g =>
    ((C3_damage_bounds (FCombatant.mk "Player1" 100 100 8 15 ETeam.Players)
      (by decide) (by decide)).1 g).2.2.2.1 (by decide)⟩

/-- Claim C3 as first stated fails: an attacker with
`MinDamage = MaxDamage = 2000000000` meets `0 <= MinDamage <= MaxDamage`, the
base draw is 2000000000 and the critical draw is 20, both within their ranges,
and `CalculateDamage` returns -294967296, which is negative and below
`2 * MinDamage`. -/
theorem C3_damage_bounds_counterexample :
    (0 : Int) ≤ (FCombatant.mk "A" 100 10 2000000000 2000000000 ETeam.Players).MinDamage ∧
    (FCombatant.mk "A" 100 10 2000000000 2000000000 ETeam.Players).MinDamage ≤
      (FCombatant.mk "A" 100 10 2000000000 2000000000 ETeam.Players).MaxDamage ∧
    (uniformInt 2000000000 2000000000 (RandomSource.ofList [0, 19])).1 = 2000000000 ∧
    (uniformInt 1 20 (uniformInt 2000000000 2000000000 (RandomSource.ofList [0, 19])).2).1
      = 20 ∧
    (IsCritical (uniformInt 2000000000 2000000000 (RandomSource.ofList [0, 19])).2).1 = true ∧
    (CalculateDamage (RandomSource.ofList [0, 19])
      (FCombatant.mk "A" 100 10 2000000000 2000000000 ETeam.Players)).1 = -294967296 ∧
    ¬ (0 ≤ (CalculateDamage (RandomSource.ofList [0, 19])
      (FCombatant.mk "A" 100 10 2000000000 2000000000 ETeam.Players)).1) ∧
    ¬ (2 * (FCombatant.mk "A" 100 10 2000000000 2000000000 ETeam.Players).MinDamage ≤
      (CalculateDamage (RandomSource.ofList [0, 19])
        (FCombatant.mk "A" 100 10 2000000000 2000000000 ETeam.Players)).1) := by
  decide

/-- Claim C4 (critical-hit rule, amended): `IsCritical` answers true exactly
when its draw over `[1, 20]` is 20; the twenty raw outcomes `0..19` give the
twenty draws `1..20`, and exactly one of them, the one giving 20, is critical;
`CalculateDamage` returns the base draw itself when the attack is not critical
and the `int` product of the base draw by 2 when it is, which is twice the base
draw whenever that double fits a 32-bit `int`. -/
theorem C4_critical_rule :
    (∀ g : RandomSource, (IsCritical g).1 = true ↔ (uniformInt 1 20 g).1 = 20) ∧
    (∀ g : RandomSource, 1 ≤ (uniformInt 1 20 g).1 ∧ (uniformInt 1 20 g).1 ≤ 20) ∧
    (List.range 20).map (fun r => (uniformInt 1 20 (RandomSource.ofList [r])).1) =
      [1, 2, 3, 4, 5, 6, 7, 8, 9, 10, 11, 12, 13, 14, 15, 16, 17, 18, 19, 20] ∧
    (List.range 20).filter (fun r => (IsCritical (RandomSource.ofList [r])).1) = [19] ∧
    ((List.range 20).filter (fun r => (IsCritical (RandomSource.ofList [r])).1)).length = 1 ∧
    (∀ (g : RandomSource) (A : FCombatant),
      ((IsCritical (uniformInt A.MinDamage A.MaxDamage g).2).1 = true →
        (CalculateDamage g A).1 = intMul (uniformInt A.MinDamage A.MaxDamage g).1 2) ∧
      ((IsCritical (uniformInt A.MinDamage A.MaxDamage g).2).1 = true →
        -2 ^ 31 ≤ 2 * (uniformInt A.MinDamage A.MaxDamage g).1 →
        2 * (uniformInt A.MinDamage A.MaxDamage g).1 ≤ 2 ^ 31 - 1 →
        (CalculateDamage g A).1 = 2 * (uniformInt A.MinDamage A.MaxDamage g).1) ∧
      ((IsCritical (uniformInt A.MinDamage A.MaxDamage g).2).1 = false →
        (CalculateDamage g A).1 = (uniformInt A.MinDamage A.MaxDamage g).1)) := by
  refine ⟨fun g => ?_, fun g => ⟨uniformInt_fst_ge 1 20 g (by norm_num),
    uniformInt_fst_le 1 20 g (by norm_num)⟩, by decide, by decide, by decide, fun g A => ?_⟩
  · rw [IsCritical_fst]; simp
  · rw [CalculateDamage_fst]
    refine ⟨?_, ?_, ?_⟩
    · intro h; rw [h]; simp only [if_true]
    · intro h hlo hhi; rw [h]; simp only [if_true]; exact intMul_two_eq _ hlo hhi
    · intro h; rw [h]; simp

/-- Claim C4 as first stated fails: with the base draw 2000000000 and the
critical draw 20, `CalculateDamage` returns -294967296, not twice the base
draw. -/
theorem C4_critical_rule_counterexample :
    (IsCritical (uniformInt 2000000000 2000000000 (RandomSource.ofList [0, 19])).2).1 = true ∧
    2 * (uniformInt 2000000000 2000000000 (RandomSource.ofList [0, 19])).1 = 4000000000 ∧
    (CalculateDamage (RandomSource.ofList [0, 19])
      (FCombatant.mk "A" 100 10 2000000000 2000000000 ETeam.Players)).1 ≠
      2 * (uniformInt
        (FCombatant.mk "A" 100 10 2000000000 2000000000 ETeam.Players).MinDamage
        (FCombatant.mk "A" 100 10 2000000000 2000000000 ETeam.Players).MaxDamage
        (RandomSource.ofList [0, 19])).1 := by
  decide

/-! ## Teams -/

theorem teamAliveIn_iff (team : ETeam) (cs : List FCombatant) :
    teamAliveIn team cs = true ↔ ∃ c ∈ cs, c.Team = team ∧ c.IsAlive = true := by
  induction cs with
  | nil => simp [teamAliveIn]
  | cons c rest ih =>
    unfold teamAliveIn
    by_cases h : c.Team = team ∧ c.IsAlive = true
    · have h2 : (decide (c.Team = team) && c.IsAlive) = true := by simp [h.1, h.2]
      rw [if_pos h2]
      simp only [true_iff]
      exact ⟨c, List.mem_cons_self _ _, h⟩
    · have h2 : ¬ (decide (c.Team = team) && c.IsAlive) = true := by
        simpa using h
      rw [if_neg h2, ih]
      constructor
      · rintro ⟨d, hd, hd2⟩; exact ⟨d, List.mem_cons_of_mem _ hd, hd2⟩
      · rintro ⟨d, hd, hd2⟩
        rcases List.mem_cons.1 hd with rfl | hd
        · exact absurd hd2 h
        · exact ⟨d, hd, hd2⟩

theorem teamAliveIn_eq_false_iff (team : ETeam) (cs : List FCombatant) :
    teamAliveIn team cs = false ↔ ∀ c ∈ cs, c.Team = team → c.IsAlive = false := by
  rw [← Bool.not_eq_true, teamAliveIn_iff]
  constructor
  · intro h c hc hteam
    cases hal : c.IsAlive with
    | false => rfl
    | true => exact absurd ⟨c, hc, hteam, hal⟩ h
  · rintro h ⟨c, hc, hteam, hal⟩
    rw [h c hc hteam] at hal
    exact absurd hal (by decide)

theorem team_cases (t : ETeam) : t = ETeam.Players ∨ t = ETeam.Enemies := by
  cases t
  · exact Or.inl rfl
  · exact Or.inr rfl

theorem IsTeamAlive_of_getElem? (s : FTurnBasedCombat) (a : Nat) (A : FCombatant)
    (hA : s.Combatants[a]? = some A) (halive : A.IsAlive = true) :
    IsTeamAlive s A.Team = true :=
  (teamAliveIn_iff _ _).2 ⟨A, List.getElem?_mem hA, rfl, halive⟩

theorem someTeamAlive_of_getElem? (s : FTurnBasedCombat) (a : Nat) (A : FCombatant)
    (hA : s.Combatants[a]? = some A) (halive : A.IsAlive = true) :
    IsTeamAlive s ETeam.Players = true ∨ IsTeamAlive s ETeam.Enemies = true := by
  have h := IsTeamAlive_of_getElem? s a A hA halive
  rcases team_cases A.Team with ht | ht <;> rw [ht] at h
  · exact Or.inl h
  · exact Or.inr h

/-- The attacker of an attack is still in the roster, unchanged, after it. -/
theorem CombatantTurn_attacker (s : FTurnBasedCombat) (a : Nat) (A : FCombatant)
    (hA : s.Combatants[a]? = some A) : (CombatantTurn s a).Combatants[a]? = some A := by
  rcases CombatantTurn_cases s a with heq | ⟨A2, t, T, _, _, ht, _, heq⟩
  · rw [heq]; exact hA
  · rw [heq]
    have hne := (collectTargets_getElem? _ _ _ _ ht).1
    simp only []
    rw [List.getElem?_set_ne hne]
    exact hA

theorem someTeamAlive_CombatantTurn (s : FTurnBasedCombat) (a : Nat)
    (h : IsTeamAlive s ETeam.Players = true ∨ IsTeamAlive s ETeam.Enemies = true) :
    IsTeamAlive (CombatantTurn s a) ETeam.Players = true ∨
      IsTeamAlive (CombatantTurn s a) ETeam.Enemies = true := by
  rcases CombatantTurn_cases s a with heq | ⟨A, t, T, hA, halive, _, _, _⟩
  · rw [heq]; exact h
  · exact someTeamAlive_of_getElem? _ a A (CombatantTurn_attacker s a A hA) halive

theorem bothTeamsAlive_iff (s : FTurnBasedCombat) :
    bothTeamsAlive s = true ↔
      IsTeamAlive s ETeam.Players = true ∧ IsTeamAlive s ETeam.Enemies = true := by
  simp [bothTeamsAlive]

/-- Claim C5 (winner exclusivity): when the combat starts with a living member
on each team and `RunCombat` stops, exactly one team has a living member, and
the outcome is `PlayersWin` when it is `Players` and `EnemiesWin` when it is
`Enemies`; in every state met during the combat (any point of any round, before
or after a turn) at least one team has a living member. -/
theorem C5_winner_exclusivity (s : FTurnBasedCombat) (h : bothTeamsAlive s = true) :
    (∀ fuel s1, RunCombat fuel s = some s1 →
      (IsTeamAlive s1 ETeam.Players = true ∧ IsTeamAlive s1 ETeam.Enemies = false ∧
        combatState s1 = ECombatState.PlayersWin) ∨
      (IsTeamAlive s1 ETeam.Players = false ∧ IsTeamAlive s1 ETeam.Enemies = true ∧
        combatState s1 = ECombatState.EnemiesWin)) ∧
    (∀ k n i,
      IsTeamAlive (roundLoop n i (afterRounds k s)) ETeam.Players = true ∨
      IsTeamAlive (roundLoop n i (afterRounds k s)) ETeam.Enemies = true) ∧
    (∀ k n i a,
      IsTeamAlive (CombatantTurn (roundLoop n i (afterRounds k s)) a) ETeam.Players = true ∨
      IsTeamAlive (CombatantTurn (roundLoop n i (afterRounds k s)) a) ETeam.Enemies = true) := by
  have h0 : IsTeamAlive s ETeam.Players = true ∨ IsTeamAlive s ETeam.Enemies = true :=
    Or.inl ((bothTeamsAlive_iff s).1 h).1
  have hafter := afterRounds_induct
    (fun s => IsTeamAlive s ETeam.Players = true ∨ IsTeamAlive s ETeam.Enemies = true)
    someTeamAlive_CombatantTurn (fun _ hs => hs)
  have hround := roundLoop_induct
    (fun s => IsTeamAlive s ETeam.Players = true ∨ IsTeamAlive s ETeam.Enemies = true)
    someTeamAlive_CombatantTurn
  refine ⟨?_, fun k n i => hround n i _ (hafter k s h0),
    fun k n i a => someTeamAlive_CombatantTurn _ a (hround n i _ (hafter k s h0))⟩
  intro fuel s1 hrun
  obtain ⟨heq, hstop⟩ := RunCombat_some fuel s s1 hrun
  have hone := hafter fuel s h0
  rw [← heq] at hone
  clear hrun heq
  unfold bothTeamsAlive at hstop
  unfold combatState
  revert hone hstop
  cases IsTeamAlive s1 ETeam.Players <;> cases IsTeamAlive s1 ETeam.Enemies <;> simp

/-- Instance of C5 on the duel, which `Players` win in the third round. -/
theorem C5_winner_exclusivity_witness :
    bothTeamsAlive duel = true ∧
    (RunCombat 3 duel).map combatState = some ECombatState.PlayersWin ∧
    (∀ fuel s1, RunCombat fuel duel = some s1 →
      (IsTeamAlive s1 ETeam.Players = true ∧ IsTeamAlive s1 ETeam.Enemies = false ∧
        combatState s1 = ECombatState.PlayersWin) ∨
      (IsTeamAlive s1 ETeam.Players = false ∧ IsTeamAlive s1 ETeam.Enemies = true ∧
        combatState s1 = ECombatState.EnemiesWin)) :=
  ⟨by decide, by decide, (C5_winner_exclusivity duel (by decide)).1⟩

/-! ## The pool of hit points -/

theorem totalHP_set (cs : List FCombatant) :
    ∀ (t : Nat) (T U : FCombatant), cs[t]? = some T →
      totalHP (cs.set t U) = totalHP cs - T.CurrentHP + U.CurrentHP := by
  induction cs with
  | nil => intro t T U h; simp at h
  | cons c rest ih =>
    intro t T U h
    cases t with
    | zero =>
      simp only [List.getElem?_cons_zero, Option.some.injEq] at h
      subst h
      simp only [List.set_cons_zero, totalHP]
      omega
    | succ t =>
      simp only [List.getElem?_cons_succ] at h
      simp only [List.set_cons_succ, totalHP, ih t T U h]
      omega

theorem totalHP_ge_member (cs : List FCombatant) (h : hpInRange cs) :
    0 ≤ totalHP cs ∧ ∀ c ∈ cs, c.CurrentHP ≤ totalHP cs := by
  induction cs with
  | nil => simp [totalHP]
  | cons c rest ih =>
    have hrest : hpInRange rest := fun d hd => h d (List.mem_cons_of_mem _ hd)
    have hc := h c (List.mem_cons_self _ _)
    obtain ⟨ih1, ih2⟩ := ih hrest
    simp only [totalHP]
    refine ⟨by omega, ?_⟩
    intro d hd
    rcases List.mem_cons.1 hd with rfl | hd
    · omega
    · have := ih2 d hd; omega

theorem damageFrom_CombatantTurn (lo : Int) (s : FTurnBasedCombat) (a : Nat)
    (h : damageFrom lo s.Combatants) : damageFrom lo (CombatantTurn s a).Combatants := by
  rcases CombatantTurn_cases s a with heq | ⟨A, t, T, _, _, _, hT, heq⟩
  · rw [heq]; exact h
  · rw [heq]
    intro c hc
    rcases List.mem_or_eq_of_mem_set hc with hc | hc
    · exact h c hc
    · subst hc
      exact h T (List.getElem?_mem hT)

theorem withinInt_CombatantTurn (s : FTurnBasedCombat) (a : Nat)
    (h : withinInt s.Combatants) : withinInt (CombatantTurn s a).Combatants := by
  rcases CombatantTurn_cases s a with heq | ⟨A, t, T, _, _, _, hT, heq⟩
  · rw [heq]; exact h
  · rw [heq]
    intro c hc
    rcases List.mem_or_eq_of_mem_set hc with hc | hc
    · exact h c hc
    · subst hc
      exact h T (List.getElem?_mem hT)

/-- The difference of line 111 stays within `int` when the roster does: it is
the difference of the integers. -/
theorem intSub_damage (s : FTurnBasedCombat) (A T : FCombatant) (lo : Int) (h0 : 0 ≤ lo)
    (hhp : hpInRange s.Combatants) (hdmg : damageFrom lo s.Combatants)
    (hfit : withinInt s.Combatants) (hA : A ∈ s.Combatants) (hT : T ∈ s.Combatants) :
    lo ≤ (CalculateDamage s.RandomGenerator A).1 ∧
    intSub T.CurrentHP (CalculateDamage s.RandomGenerator A).1 =
      T.CurrentHP - (CalculateDamage s.RandomGenerator A).1 := by
  have hTr := hhp T hT
  have hTf := (hfit T hT).1
  have hAd := hdmg A hA
  have hd := CalculateDamage_ge s.RandomGenerator A lo h0 hAd.1 hAd.2 (hfit A hA).2
  exact ⟨hd.1, intSub_eq _ _ (by omega) (by omega)⟩

/-- A turn never raises the pool when damage is non-negative and the roster
stays within `int`. -/
theorem totalHP_CombatantTurn_le (s : FTurnBasedCombat) (a : Nat)
    (hhp : hpInRange s.Combatants) (hdmg : damageFrom 0 s.Combatants)
    (hfit : withinInt s.Combatants) :
    totalHP (CombatantTurn s a).Combatants ≤ totalHP s.Combatants := by
  rcases CombatantTurn_cases s a with heq | ⟨A, t, T, hA, _, _, hT, heq⟩
  · rw [heq]
  · rw [heq]
    simp only []
    rw [totalHP_set _ t T _ hT]
    have hTr := hhp T (List.getElem?_mem hT)
    obtain ⟨hd, hsub⟩ := intSub_damage s A T 0 (le_refl _) hhp hdmg hfit
      (List.getElem?_mem hA) (List.getElem?_mem hT)
    simp only [hsub, clamp]
    split_ifs <;> omega

theorem totalHP_CombatantTurn_lt (s : FTurnBasedCombat) (a : Nat) (A : FCombatant)
    (hhp : hpInRange s.Combatants) (hdmg : damageFrom 1 s.Combatants)
    (hfit : withinInt s.Combatants)
    (hA : s.Combatants[a]? = some A) (halive : A.IsAlive = true)
    (hne : collectTargets a A.Team 0 s.Combatants ≠ []) :
    totalHP (CombatantTurn s a).Combatants < totalHP s.Combatants := by
  obtain ⟨t, T, ht, hT, heq⟩ := CombatantTurn_attack s a A hA halive hne
  rw [heq]
  simp only []
  rw [totalHP_set _ t T _ hT]
  have hTr := hhp T (List.getElem?_mem hT)
  obtain ⟨hd, hsub⟩ := intSub_damage s A T 1 (by norm_num) hhp hdmg hfit
    (List.getElem?_mem hA) (List.getElem?_mem hT)
  have hTalive := (collectTargets_getElem? _ _ _ _ (List.getElem?_mem ht)).2
  obtain ⟨T2, hT2, _, hal⟩ := hTalive
  rw [hT] at hT2
  simp only [Option.some.injEq] at hT2
  subst hT2
  simp only [FCombatant.IsAlive, decide_eq_true_eq] at hal
  simp only [hsub, clamp]
  split_ifs <;> omega

theorem damageFrom_mono (lo lo2 : Int) (cs : List FCombatant) (h : lo2 ≤ lo)
    (hd : damageFrom lo cs) : damageFrom lo2 cs :=
  fun c hc => ⟨le_trans h (hd c hc).1, (hd c hc).2⟩

/-- With both teams alive a living roster member has a target. -/
theorem collectTargets_ne_nil (s : FTurnBasedCombat) (a : Nat) (A : FCombatant)
    (hboth : bothTeamsAlive s = true) (hA : s.Combatants[a]? = some A) :
    collectTargets a A.Team 0 s.Combatants ≠ [] := by
  obtain ⟨hP, hE⟩ := (bothTeamsAlive_iff s).1 hboth
  have hother : ∃ c ∈ s.Combatants, c.Team ≠ A.Team ∧ c.IsAlive = true := by
    rcases team_cases A.Team with ht | ht
    · obtain ⟨c, hc, hteam, hal⟩ := (teamAliveIn_iff _ _).1 hE
      exact ⟨c, hc, by rw [hteam, ht]; decide, hal⟩
    · obtain ⟨c, hc, hteam, hal⟩ := (teamAliveIn_iff _ _).1 hP
      exact ⟨c, hc, by rw [hteam, ht]; decide, hal⟩
  obtain ⟨c, hc, hteam, hal⟩ := hother
  obtain ⟨j, hj⟩ := List.mem_iff_getElem?.1 hc
  have hja : j ≠ a := by
    rintro rfl
    rw [hA] at hj
    simp only [Option.some.injEq] at hj
    subst hj
    exact hteam rfl
  have hmem : j ∈ collectTargets a A.Team 0 s.Combatants :=
    (mem_collectTargets a A.Team s.Combatants 0 j).2
      ⟨Nat.zero_le _, hja, c, by simpa using hj, hteam, hal⟩
  exact List.ne_nil_of_mem hmem

/-- The well-formedness carried through a combat, with the pool bounded by that
of a reference state. -/
theorem roundLoop_totalHP_le (n i : Nat) (s : FTurnBasedCombat)
    (hhp : hpInRange s.Combatants) (hdmg : damageFrom 1 s.Combatants)
    (hfit : withinInt s.Combatants) :
    hpInRange (roundLoop n i s).Combatants ∧ damageFrom 1 (roundLoop n i s).Combatants ∧
      withinInt (roundLoop n i s).Combatants ∧
      totalHP (roundLoop n i s).Combatants ≤ totalHP s.Combatants := by
  refine roundLoop_induct
    (fun u => hpInRange u.Combatants ∧ damageFrom 1 u.Combatants ∧ withinInt u.Combatants ∧
      totalHP u.Combatants ≤ totalHP s.Combatants) ?_ n i s ⟨hhp, hdmg, hfit, le_refl _⟩
  rintro u a ⟨h1, h2, hf, h3⟩
  exact ⟨hpInRange_CombatantTurn u a h1, damageFrom_CombatantTurn 1 u a h2,
    withinInt_CombatantTurn u a hf,
    le_trans (totalHP_CombatantTurn_le u a h1 (damageFrom_mono 1 0 _ (by norm_num) h2) hf) h3⟩

theorem roundLoop_totalHP_lt :
    ∀ (n i : Nat) (s : FTurnBasedCombat), hpInRange s.Combatants →
      damageFrom 1 s.Combatants → withinInt s.Combatants → bothTeamsAlive s = true →
      (∃ j c, i ≤ j ∧ j < i + n ∧ s.Combatants[j]? = some c ∧ c.IsAlive = true) →
      totalHP (roundLoop n i s).Combatants < totalHP s.Combatants := by
  intro n
  induction n with
  | zero =>
    rintro i s _ _ _ _ ⟨j, c, h1, h2, _⟩
    omega
  | succ n ih =>
    rintro i s hhp hdmg hfit hboth ⟨j, c, h1, h2, hj, hal⟩
    cases h : s.Combatants[i]? with
    | none =>
      have hlen : s.Combatants.length ≤ i := List.getElem?_eq_none_iff.1 h
      have hjlt : j < s.Combatants.length := (List.getElem?_eq_some.1 hj).1
      omega
    | some d =>
      cases hd : d.IsAlive with
      | false =>
        rw [roundLoop_dead n i s d h hd]
        have hji : j ≠ i := by
          rintro rfl
          rw [h] at hj
          simp only [Option.some.injEq] at hj
          subst hj
          rw [hd] at hal
          exact absurd hal (by decide)
        exact ih (i + 1) s hhp hdmg hfit hboth ⟨j, c, by omega, by omega, hj, hal⟩
      | true =>
        have hlt := totalHP_CombatantTurn_lt s i d hhp hdmg hfit h hd
          (collectTargets_ne_nil s i d hboth h)
        cases hb : bothTeamsAlive (CombatantTurn s i) with
        | false => rw [roundLoop_break n i s d h hd hb]; exact hlt
        | true =>
          rw [roundLoop_continue n i s d h hd hb]
          have := (roundLoop_totalHP_le n (i + 1) (CombatantTurn s i)
            (hpInRange_CombatantTurn s i hhp) (damageFrom_CombatantTurn 1 s i hdmg)
            (withinInt_CombatantTurn s i hfit)).2.2.2
          omega

theorem exists_alive_of_bothTeamsAlive (s : FTurnBasedCombat) (hboth : bothTeamsAlive s = true) :
    ∃ j c, j < s.Combatants.length ∧ s.Combatants[j]? = some c ∧ c.IsAlive = true := by
  obtain ⟨c, hc, _, hal⟩ := (teamAliveIn_iff _ _).1 ((bothTeamsAlive_iff s).1 hboth).1
  obtain ⟨j, hj⟩ := List.mem_iff_getElem?.1 hc
  exact ⟨j, c, (List.getElem?_eq_some.1 hj).1, hj, hal⟩

theorem runRound_totalHP_lt (s : FTurnBasedCombat) (hhp : hpInRange s.Combatants)
    (hdmg : damageFrom 1 s.Combatants) (hfit : withinInt s.Combatants)
    (hboth : bothTeamsAlive s = true) :
    hpInRange (runRound s).Combatants ∧ damageFrom 1 (runRound s).Combatants ∧
      withinInt (runRound s).Combatants ∧
      totalHP (runRound s).Combatants < totalHP s.Combatants := by
  obtain ⟨j, c, hj, hc, hal⟩ := exists_alive_of_bothTeamsAlive s hboth
  have h1 := roundLoop_totalHP_le s.Combatants.length 0 s hhp hdmg hfit
  have h2 := roundLoop_totalHP_lt s.Combatants.length 0 s hhp hdmg hfit hboth
    ⟨j, c, Nat.zero_le _, by omega, hc, hal⟩
  exact ⟨h1.1, h1.2.1, h1.2.2.1, h2⟩

theorem RunCombat_terminates_within :
    ∀ (n : Nat) (s : FTurnBasedCombat), hpInRange s.Combatants → damageFrom 1 s.Combatants →
      withinInt s.Combatants →
      totalHP s.Combatants ≤ (n : Int) → ∃ s1, RunCombat n s = some s1 := by
  intro n
  induction n with
  | zero =>
    intro s hhp hdmg hfit hle
    cases hboth : bothTeamsAlive s with
    | false => exact ⟨s, by simp [RunCombat, hboth]⟩
    | true =>
      obtain ⟨j, c, _, hc, hal⟩ := exists_alive_of_bothTeamsAlive s hboth
      have := (totalHP_ge_member s.Combatants hhp).2 c (List.getElem?_mem hc)
      simp only [FCombatant.IsAlive, decide_eq_true_eq] at hal
      simp only [Nat.cast_zero] at hle
      omega
  | succ n ih =>
    intro s hhp hdmg hfit hle
    cases hboth : bothTeamsAlive s with
    | false => exact ⟨s, by simp [RunCombat, hboth]⟩
    | true =>
      obtain ⟨h1, h2, hf, h3⟩ := runRound_totalHP_lt s hhp hdmg hfit hboth
      obtain ⟨s1, hs1⟩ := ih (runRound s) h1 h2 hf (by push_cast at hle; omega)
      exact ⟨s1, by simp only [RunCombat, hboth, if_true]; exact hs1⟩

theorem RunCombat_more_fuel :
    ∀ (fuel more : Nat) (s s1 : FTurnBasedCombat), RunCombat fuel s = some s1 →
      RunCombat (fuel + more) s = some s1 := by
  intro fuel
  induction fuel with
  | zero =>
    intro more s s1 h
    cases hboth : bothTeamsAlive s with
    | true => simp [RunCombat, hboth] at h
    | false =>
      simp only [RunCombat, hboth, Bool.false_eq_true, if_false] at h
      cases more with
      | zero => simp [RunCombat, hboth, h]
      | succ m => simp only [Nat.zero_add, RunCombat, hboth, Bool.false_eq_true, if_false, h]
  | succ fuel ih =>
    intro more s s1 h
    have hadd : fuel + 1 + more = (fuel + more) + 1 := by omega
    rw [hadd]
    cases hboth : bothTeamsAlive s with
    | true =>
      simp only [RunCombat, hboth, if_true] at h ⊢
      exact ih more _ _ h
    | false =>
      simp only [RunCombat, hboth, Bool.false_eq_true, if_false] at h ⊢
      exact h

/-- Claim C6 (termination, amended): from a roster with a living member on each
team, hit points within `[0, MaxHP]`, `1 <= MinDamage <= MaxDamage`, and `MaxHP`
and twice `MaxDamage` within the range of a 32-bit `int` for every combatant,
`RunCombat` does not stop before a round is played and stops after finitely
many rounds, whatever the generator yields, in a state where a team has no
living member, and a larger bound on the rounds gives the same state; every
round started with both teams alive lowers the non-negative pool of hit
points. -/
theorem C6_termination (s : FTurnBasedCombat) (hboth : bothTeamsAlive s = true)
    (hhp : hpInRange s.Combatants) (hdmg : damageFrom 1 s.Combatants)
    (hfit : withinInt s.Combatants) :
    RunCombat 0 s = none ∧
    (∃ fuel s1, RunCombat fuel s = some s1 ∧
      (IsTeamAlive s1 ETeam.Players = false ∨ IsTeamAlive s1 ETeam.Enemies = false) ∧
      ∀ more, RunCombat (fuel + more) s = some s1) ∧
    (∀ k, bothTeamsAlive (afterRounds k s) = true →
      0 ≤ totalHP (runRound (afterRounds k s)).Combatants ∧
      totalHP (runRound (afterRounds k s)).Combatants <
        totalHP (afterRounds k s).Combatants) := by
  refine ⟨by simp [RunCombat, hboth], ?_, ?_⟩
  · have hnn := (totalHP_ge_member s.Combatants hhp).1
    obtain ⟨s1, hs1⟩ := RunCombat_terminates_within (totalHP s.Combatants).toNat s hhp hdmg
      hfit (by rw [Int.toNat_of_nonneg hnn])
    refine ⟨_, s1, hs1, ?_, fun more => RunCombat_more_fuel _ more s s1 hs1⟩
    have hstop := (RunCombat_some _ s s1 hs1).2
    unfold bothTeamsAlive at hstop
    revert hstop
    cases IsTeamAlive s1 ETeam.Players <;> cases IsTeamAlive s1 ETeam.Enemies <;> simp
  · intro k hk
    have hW := afterRounds_induct
      (fun u => hpInRange u.Combatants ∧ damageFrom 1 u.Combatants ∧ withinInt u.Combatants)
      (fun u a hu => ⟨hpInRange_CombatantTurn u a hu.1, damageFrom_CombatantTurn 1 u a hu.2.1,
        withinInt_CombatantTurn u a hu.2.2⟩)
      (fun _ hu => hu) k s ⟨hhp, hdmg, hfit⟩
    obtain ⟨h1, _, _, h3⟩ := runRound_totalHP_lt (afterRounds k s) hW.1 hW.2.1 hW.2.2 hk
    exact ⟨(totalHP_ge_member _ h1).1, h3⟩

/-- Instance of C6 on the duel. -/
theorem C6_termination_witness :
    bothTeamsAlive duel = true ∧ hpInRange duel.Combatants ∧ damageFrom 1 duel.Combatants ∧
    withinInt duel.Combatants ∧
    (RunCombat 2 duel).isSome = false ∧ (RunCombat 3 duel).isSome = true ∧
    ∃ fuel s1, RunCombat fuel duel = some s1 ∧
      (IsTeamAlive s1 ETeam.Players = false ∨ IsTeamAlive s1 ETeam.Enemies = false) ∧
      ∀ more, RunCombat (fuel + more) duel = some s1 :=
  ⟨by decide, by decide, by decide, by decide, by decide, by decide,
    (C6_termination duel (by decide) (by decide) (by decide) (by decide)).2.1⟩

/-! ### A combat that does not end -/

theorem stream_CombatantTurn (s : FTurnBasedCombat) (a : Nat) :
    (CombatantTurn s a).RandomGenerator.stream = s.RandomGenerator.stream := by
  rcases CombatantTurn_cases s a with heq | ⟨A, t, T, _, _, _, _, heq⟩ <;> rw [heq]

/-- The damage of a member of the overflowing duel under the constant
generator: the doubled 2000000000 held by an `int`. -/
theorem overflow_damage (g : RandomSource) (A : FCombatant) (hg : g.stream = fun _ => 19)
    (hmin : A.MinDamage = 2000000000) (hmax : A.MaxDamage = 2000000000) :
    (CalculateDamage g A).1 = -294967296 := by
  rw [CalculateDamage_fst, IsCritical_fst]
  simp only [uniformInt, hg, hmin, hmax]
  decide

/-- The roster in which the overflowing duel settles: both members at their
maximal hit points. -/
theorem overflow_fixed (u : FTurnBasedCombat) (a : Nat)
    (hg : u.RandomGenerator.stream = fun _ => 19)
    (hcs : u.Combatants = [⟨"A", 100, 100, 2000000000, 2000000000, ETeam.Players⟩,
      ⟨"B", 100, 100, 2000000000, 2000000000, ETeam.Enemies⟩]) :
    (CombatantTurn u a).RandomGenerator.stream = (fun _ => 19) ∧
    (CombatantTurn u a).Combatants = [⟨"A", 100, 100, 2000000000, 2000000000, ETeam.Players⟩,
      ⟨"B", 100, 100, 2000000000, 2000000000, ETeam.Enemies⟩] := by
  refine ⟨(stream_CombatantTurn u a).trans hg, ?_⟩
  rcases CombatantTurn_cases u a with heq | ⟨A, t, T, hA, _, _, hT, heq⟩
  · rw [heq]; exact hcs
  · rw [heq]
    simp only []
    have hAmem := List.getElem?_mem hA
    have hTmem := List.getElem?_mem hT
    rw [hcs] at hAmem hTmem
    have hd : (CalculateDamage u.RandomGenerator A).1 = -294967296 := by
      apply overflow_damage _ _ hg
      · simp only [List.mem_cons, List.mem_singleton, List.not_mem_nil, or_false] at hAmem
        rcases hAmem with rfl | rfl <;> rfl
      · simp only [List.mem_cons, List.mem_singleton, List.not_mem_nil, or_false] at hAmem
        rcases hAmem with rfl | rfl <;> rfl
    have hsame : ({ T with
        CurrentHP :=
          clamp (intSub T.CurrentHP (CalculateDamage u.RandomGenerator A).1) 0 T.MaxHP } :
        FCombatant) = T := by
      rw [hd]
      simp only [List.mem_cons, List.mem_singleton, List.not_mem_nil, or_false] at hTmem
      rcases hTmem with rfl | rfl <;> decide
    rw [hsame]
    have hset : u.Combatants.set t T = u.Combatants := by
      apply List.ext_getElem?
      intro j
      by_cases hj : t = j
      · subst hj
        rw [List.getElem?_set_self (List.getElem?_eq_some.1 hT).1, hT]
      · rw [List.getElem?_set_ne hj]
    rw [hset, hcs]

theorem overflowDuel_never_ends (k : Nat) :
    bothTeamsAlive (afterRounds (k + 1) overflowDuel) = true ∧
    RunCombat (k + 1) overflowDuel = none := by
  have hinv := afterRounds_induct
    (fun u => u.RandomGenerator.stream = (fun _ => 19) ∧
      u.Combatants = [⟨"A", 100, 100, 2000000000, 2000000000, ETeam.Players⟩,
        ⟨"B", 100, 100, 2000000000, 2000000000, ETeam.Enemies⟩])
    (fun u a hu => overflow_fixed u a hu.1 hu.2) (fun _ hu => hu) k (runRound overflowDuel)
    ⟨rfl, by decide⟩
  have hstep : afterRounds (k + 1) overflowDuel = afterRounds k (runRound overflowDuel) := by
    have hb : bothTeamsAlive overflowDuel = true := by decide
    simp only [afterRounds, hb, if_true]
  have hboth : bothTeamsAlive (afterRounds (k + 1) overflowDuel) = true := by
    rw [hstep]
    unfold bothTeamsAlive IsTeamAlive
    rw [hinv.2]
    decide
  refine ⟨hboth, ?_⟩
  rw [RunCombat_eq_afterRounds, hboth]
  rfl

/-- Claim C6 as first stated fails: the overflowing duel has a living member on
each team, hit points within `[0, MaxHP]` and `1 <= MinDamage <= MaxDamage`, and
with every attack critical its first round brings both members to their maximal
hit points, where they stay: `RunCombat` returns for no bound on the rounds. -/
theorem C6_termination_counterexample :
    bothTeamsAlive overflowDuel = true ∧ hpInRange overflowDuel.Combatants ∧
    damageFrom 1 overflowDuel.Combatants ∧
    (runRound overflowDuel).Combatants.map (fun c => c.CurrentHP) = [100, 100] ∧
    ¬ ∃ fuel s1, RunCombat fuel overflowDuel = some s1 := by
  refine ⟨by decide, by decide, by decide, by decide, ?_⟩
  rintro ⟨fuel, s1, h⟩
  cases fuel with
  | zero =>
    have hb : bothTeamsAlive overflowDuel = true := by decide
    simp [RunCombat, hb] at h
  | succ k =>
    rw [(overflowDuel_never_ends k).2] at h
    exact absurd h (by simp)

/-! ## Turns without effect and the end of a combat -/

theorem CombatantTurn_no_target (s : FTurnBasedCombat) (a : Nat) (A : FCombatant)
    (hA : s.Combatants[a]? = some A)
    (hno : ∀ c ∈ s.Combatants, c.Team ≠ A.Team → c.IsAlive = false) :
    collectTargets a A.Team 0 s.Combatants = [] ∧ CombatantTurn s a = s := by
  have hnil : collectTargets a A.Team 0 s.Combatants = [] := by
    apply List.eq_nil_iff_forall_not_mem.2
    intro t ht
    obtain ⟨_, T, hT, hteam, hal⟩ := collectTargets_getElem? _ _ _ _ ht
    rw [hno T (List.getElem?_mem hT) hteam] at hal
    exact absurd hal (by decide)
  refine ⟨hnil, ?_⟩
  unfold CombatantTurn
  simp only [hA, hnil]
  split <;> rfl

theorem CombatantTurn_of_not_both (s : FTurnBasedCombat) (a : Nat) (A : FCombatant)
    (hA : s.Combatants[a]? = some A) (halive : A.IsAlive = true)
    (hb : bothTeamsAlive s = false) : CombatantTurn s a = s := by
  refine (CombatantTurn_no_target s a A hA ?_).2
  intro c hc hteam
  have hAteam := IsTeamAlive_of_getElem? s a A hA halive
  have hother : IsTeamAlive s c.Team = false := by
    unfold bothTeamsAlive at hb
    rcases team_cases A.Team with h1 | h1 <;> rcases team_cases c.Team with h2 | h2
    · exact absurd (h2.trans h1.symm) hteam
    · rw [h1] at hAteam; rw [h2]; simpa [hAteam] using hb
    · rw [h1] at hAteam; rw [h2]; simpa [hAteam] using hb
    · exact absurd (h2.trans h1.symm) hteam
  exact (teamAliveIn_eq_false_iff _ _).1 hother c hc rfl

/-- Once a team has no living member the rest of a round changes nothing. -/
theorem roundLoop_of_not_both :
    ∀ (n i : Nat) (s : FTurnBasedCombat), bothTeamsAlive s = false → roundLoop n i s = s := by
  intro n
  induction n with
  | zero => intro i s _; rfl
  | succ n ih =>
    intro i s hb
    cases h : s.Combatants[i]? with
    | none => exact roundLoop_none n i s h
    | some c =>
      cases hc : c.IsAlive with
      | false => rw [roundLoop_dead n i s c h hc]; exact ih _ _ hb
      | true =>
        have hturn := CombatantTurn_of_not_both s i c h hc hb
        rw [roundLoop_break n i s c h hc (by rw [hturn]; exact hb), hturn]

theorem roundLoop_past_end :
    ∀ (n i : Nat) (s : FTurnBasedCombat), s.Combatants.length ≤ i → roundLoop n i s = s := by
  intro n i s h
  cases n with
  | zero => rfl
  | succ n => exact roundLoop_none n i s (List.getElem?_eq_none_iff.2 h)

/-- A round split at a roster position. -/
theorem roundLoop_add :
    ∀ (m n i : Nat) (s : FTurnBasedCombat),
      roundLoop (m + n) i s = roundLoop n (i + m) (roundLoop m i s) := by
  intro m
  induction m with
  | zero => intro n i s; simp [roundLoop]
  | succ m ih =>
    intro n i s
    have hadd : m + 1 + n = (m + n) + 1 := by omega
    have hidx : i + (m + 1) = i + 1 + m := by omega
    rw [hadd, hidx]
    cases h : s.Combatants[i]? with
    | none =>
      rw [roundLoop_none _ i s h, roundLoop_none _ i s h]
      exact (roundLoop_past_end n _ s (by
        have := List.getElem?_eq_none_iff.1 h; omega)).symm
    | some c =>
      cases hc : c.IsAlive with
      | false =>
        rw [roundLoop_dead _ i s c h hc, roundLoop_dead _ i s c h hc]
        exact ih n (i + 1) s
      | true =>
        cases hb : bothTeamsAlive (CombatantTurn s i) with
        | false =>
          rw [roundLoop_break _ i s c h hc hb, roundLoop_break _ i s c h hc hb]
          exact (roundLoop_of_not_both n _ _ hb).symm
        | true =>
          rw [roundLoop_continue _ i s c h hc hb, roundLoop_continue _ i s c h hc hb]
          exact ih n (i + 1) _

theorem RunCombat_of_not_both (fuel : Nat) (s : FTurnBasedCombat)
    (hb : bothTeamsAlive s = false) : RunCombat fuel s = some s := by
  cases fuel <;> simp [RunCombat, hb]

theorem afterRounds_of_not_both (k : Nat) (s : FTurnBasedCombat)
    (hb : bothTeamsAlive s = false) : afterRounds k s = s := by
  cases k <;> simp [afterRounds, hb]

theorem RunCombat_add_afterRounds :
    ∀ (k fuel : Nat) (s : FTurnBasedCombat),
      RunCombat (k + fuel) s = RunCombat fuel (afterRounds k s) := by
  intro k
  induction k with
  | zero => intro fuel s; simp [afterRounds]
  | succ k ih =>
    intro fuel s
    have hadd : k + 1 + fuel = (k + fuel) + 1 := by omega
    rw [hadd]
    cases hb : bothTeamsAlive s with
    | true => simp only [RunCombat, afterRounds, hb, if_true]; exact ih fuel _
    | false =>
      simp only [RunCombat, afterRounds, hb, Bool.false_eq_true, if_false]
      exact (RunCombat_of_not_both fuel s hb).symm

theorem bothTeamsAlive_LogStatus (s : FTurnBasedCombat) :
    bothTeamsAlive (LogStatus s) = bothTeamsAlive s := rfl

/-- Claim C7 (mid-round abort): let round `k + 1` be started, and let the
member at roster position `i`, alive when its turn arrives, take a turn that
leaves a team without living member.  Then the remaining positions of the round
change nothing, the round ends in the state left by that turn followed by its
status block, and `RunCombat` stops in that very state: the final roster, the
generator and the turn lines are those right after the eliminating turn. -/
theorem C7_mid_round_abort (s0 : FTurnBasedCombat) (k i n : Nat) (c : FCombatant)
    (hstart : bothTeamsAlive (afterRounds k s0) = true)
    (hlen : i + (n + 1) = (afterRounds k s0).Combatants.length)
    (hc : (roundLoop i 0 (afterRounds k s0)).Combatants[i]? = some c)
    (halive : c.IsAlive = true)
    (helim : bothTeamsAlive (CombatantTurn (roundLoop i 0 (afterRounds k s0)) i) = false) :
    roundLoop (n + 1) i (roundLoop i 0 (afterRounds k s0)) =
      CombatantTurn (roundLoop i 0 (afterRounds k s0)) i ∧
    runRound (afterRounds k s0) =
      LogStatus (CombatantTurn (roundLoop i 0 (afterRounds k s0)) i) ∧
    (∀ fuel, RunCombat (k + 1 + fuel) s0 =
      some (LogStatus (CombatantTurn (roundLoop i 0 (afterRounds k s0)) i))) ∧
    (∀ fuel s1, RunCombat (k + 1 + fuel) s0 = some s1 →
      s1.Combatants = (CombatantTurn (roundLoop i 0 (afterRounds k s0)) i).Combatants ∧
      s1.RandomGenerator.pos =
        (CombatantTurn (roundLoop i 0 (afterRounds k s0)) i).RandomGenerator.pos ∧
      s1.cout = (CombatantTurn (roundLoop i 0 (afterRounds k s0)) i).cout ++
        [Event.status ((CombatantTurn (roundLoop i 0 (afterRounds k s0)) i).Combatants.map
          fun combatant => (combatant.Name, TeamToString combatant.Team,
            combatant.CurrentHP, combatant.MaxHP))]) := by
  have h1 := roundLoop_break n i _ c hc halive helim
  have h2 : runRound (afterRounds k s0) =
      LogStatus (CombatantTurn (roundLoop i 0 (afterRounds k s0)) i) := by
    unfold runRound
    rw [← hlen, roundLoop_add i (n + 1) 0, Nat.zero_add, h1]
  have h3 : ∀ fuel, RunCombat (k + 1 + fuel) s0 =
      some (LogStatus (CombatantTurn (roundLoop i 0 (afterRounds k s0)) i)) := by
    intro fuel
    have hadd : k + 1 + fuel = k + (fuel + 1) := by omega
    rw [hadd, RunCombat_add_afterRounds]
    simp only [RunCombat, hstart, if_true]
    rw [h2]
    exact RunCombat_of_not_both fuel _ (by rw [bothTeamsAlive_LogStatus]; exact helim)
  refine ⟨h1, h2, h3, ?_⟩
  intro fuel s1 hs1
  rw [h3 fuel] at hs1
  simp only [Option.some.injEq] at hs1
  subst hs1
  exact ⟨rfl, rfl, rfl⟩

/-- Instance of C7 on the duel: the first turn of the third round eliminates
`Enemies`. -/
theorem C7_mid_round_abort_witness :
    bothTeamsAlive (afterRounds 2 duel) = true ∧
    0 + (1 + 1) = (afterRounds 2 duel).Combatants.length ∧
    (roundLoop 0 0 (afterRounds 2 duel)).Combatants[0]? =
      some ⟨"Attacker", 30, 20, 10, 10, ETeam.Players⟩ ∧
    (FCombatant.mk "Attacker" 30 20 10 10 ETeam.Players).IsAlive = true ∧
    bothTeamsAlive (CombatantTurn (roundLoop 0 0 (afterRounds 2 duel)) 0) = false ∧
    (∀ fuel, RunCombat (2 + 1 + fuel) duel =
      some (LogStatus (CombatantTurn (roundLoop 0 0 (afterRounds 2 duel)) 0))) :=
  ⟨by decide, by decide, by decide, by decide, by decide,
    (C7_mid_round_abort duel 2 0 1 ⟨"Attacker", 30, 20, 10, 10, ETeam.Players⟩
      (by decide) (by decide) (by decide) (by decide) (by decide)).2.2.1⟩

/-- Claim C8 (empty target set): when no roster member is a living member of
the team opposed to the attacker's, the target list is empty and `CombatantTurn`
returns the engine as it was: same roster, same generator (no draw consumed),
same output (no turn line). -/
theorem C8_empty_targets_noop (s : FTurnBasedCombat) (a : Nat) (A : FCombatant)
    (hA : s.Combatants[a]? = some A)
    (hno : ∀ c ∈ s.Combatants, ¬ (c.Team ≠ A.Team ∧ c.IsAlive = true)) :
    collectTargets a A.Team 0 s.Combatants = [] ∧
    CombatantTurn s a = s ∧
    (CombatantTurn s a).Combatants = s.Combatants ∧
    (CombatantTurn s a).RandomGenerator.pos = s.RandomGenerator.pos ∧
    (CombatantTurn s a).cout = s.cout := by
  have h := CombatantTurn_no_target s a A hA (fun c hc hteam => by
    cases hal : c.IsAlive with
    | false => rfl
    | true => exact absurd ⟨hteam, hal⟩ (hno c hc))
  refine ⟨h.1, h.2, ?_, ?_, ?_⟩ <;> rw [h.2]

/-- Instance of C8: a living player facing only a dead enemy. -/
theorem C8_empty_targets_noop_witness :
    ([⟨"P", 10, 10, 1, 2, ETeam.Players⟩, ⟨"E", 10, 0, 1, 2, ETeam.Enemies⟩] :
      List FCombatant)[0]? = some ⟨"P", 10, 10, 1, 2, ETeam.Players⟩ ∧
    (∀ c ∈ ([⟨"P", 10, 10, 1, 2, ETeam.Players⟩, ⟨"E", 10, 0, 1, 2, ETeam.Enemies⟩] :
      List FCombatant), ¬ (c.Team ≠ ETeam.Players ∧ c.IsAlive = true)) ∧
    CombatantTurn ⟨[⟨"P", 10, 10, 1, 2, ETeam.Players⟩, ⟨"E", 10, 0, 1, 2, ETeam.Enemies⟩],
        RandomSource.ofList [7, 19, 0], []⟩ 0 =
      ⟨[⟨"P", 10, 10, 1, 2, ETeam.Players⟩, ⟨"E", 10, 0, 1, 2, ETeam.Enemies⟩],
        RandomSource.ofList [7, 19, 0], []⟩ :=
  ⟨by decide, by decide,
    (C8_empty_targets_noop
      ⟨[⟨"P", 10, 10, 1, 2, ETeam.Players⟩, ⟨"E", 10, 0, 1, 2, ETeam.Enemies⟩],
        RandomSource.ofList [7, 19, 0], []⟩ 0 ⟨"P", 10, 10, 1, 2, ETeam.Players⟩
      (by decide) (by decide)).2.1⟩

/-- Claim C9 (already-terminal start): when a team has no living member at the
start, `RunCombat` returns at once the engine it was given, for every bound on
the rounds: no turn is taken, the roster, the generator and the output are
unchanged; the outcome is `PlayersWin` when `Enemies` has no living member and
`EnemiesWin` otherwise. -/
theorem C9_terminal_start (s : FTurnBasedCombat) (h : bothTeamsAlive s = false) :
    (∀ fuel, RunCombat fuel s = some s) ∧
    (∀ fuel s1, RunCombat fuel s = some s1 →
      s1.Combatants = s.Combatants ∧ s1.RandomGenerator.pos = s.RandomGenerator.pos ∧
        s1.cout = s.cout) ∧
    (∀ k, afterRounds k s = s) ∧
    (IsTeamAlive s ETeam.Enemies = false → combatState s = ECombatState.PlayersWin) ∧
    (IsTeamAlive s ETeam.Enemies = true → combatState s = ECombatState.EnemiesWin) := by
  refine ⟨fun fuel => RunCombat_of_not_both fuel s h, ?_,
    fun k => afterRounds_of_not_both k s h, ?_, ?_⟩
  · intro fuel s1 hs1
    rw [RunCombat_of_not_both fuel s h] at hs1
    simp only [Option.some.injEq] at hs1
    subst hs1
    exact ⟨rfl, rfl, rfl⟩
  · intro he
    simp [combatState, he]
  · intro he
    unfold bothTeamsAlive at h
    rw [he] at h
    simp only [Bool.and_true] at h
    simp [combatState, he, h]

/-- Instance of C9: one living `Players` member and no living `Enemies`
member. -/
theorem C9_terminal_start_witness :
    bothTeamsAlive ⟨[⟨"P", 10, 3, 1, 2, ETeam.Players⟩, ⟨"E", 10, 0, 1, 2, ETeam.Enemies⟩],
      RandomSource.ofList [], []⟩ = false ∧
    (∀ fuel, RunCombat fuel
      ⟨[⟨"P", 10, 3, 1, 2, ETeam.Players⟩, ⟨"E", 10, 0, 1, 2, ETeam.Enemies⟩],
        RandomSource.ofList [], []⟩ =
      some ⟨[⟨"P", 10, 3, 1, 2, ETeam.Players⟩, ⟨"E", 10, 0, 1, 2, ETeam.Enemies⟩],
        RandomSource.ofList [], []⟩) ∧
    combatState ⟨[⟨"P", 10, 3, 1, 2, ETeam.Players⟩, ⟨"E", 10, 0, 1, 2, ETeam.Enemies⟩],
      RandomSource.ofList [], []⟩ = ECombatState.PlayersWin :=
  ⟨by decide,
    (C9_terminal_start
      ⟨[⟨"P", 10, 3, 1, 2, ETeam.Players⟩, ⟨"E", 10, 0, 1, 2, ETeam.Enemies⟩],
        RandomSource.ofList [], []⟩ (by decide)).1,
    (C9_terminal_start
      ⟨[⟨"P", 10, 3, 1, 2, ETeam.Players⟩, ⟨"E", 10, 0, 1, 2, ETeam.Enemies⟩],
        RandomSource.ofList [], []⟩ (by decide)).2.2.2.1 (by decide)⟩

/-! ## The clamped subtraction -/

theorem map_fixedPart_set (cs : List FCombatant) (t : Nat) (T : FCombatant) (hp : Int)
    (hT : cs[t]? = some T) :
    (cs.set t { T with CurrentHP := hp }).map FCombatant.fixedPart =
      cs.map FCombatant.fixedPart := by
  apply List.ext_getElem?
  intro j
  rw [List.getElem?_map, List.getElem?_map]
  by_cases hj : t = j
  · subst hj
    rw [List.getElem?_set_self (List.getElem?_eq_some.1 hT).1, hT]
    rfl
  · rw [List.getElem?_set_ne hj]

theorem fixedPart_CombatantTurn (s : FTurnBasedCombat) (a : Nat) :
    (CombatantTurn s a).Combatants.map FCombatant.fixedPart =
      s.Combatants.map FCombatant.fixedPart := by
  rcases CombatantTurn_cases s a with heq | ⟨A, t, T, _, _, _, hT, heq⟩
  · rw [heq]
  · rw [heq]; exact map_fixedPart_set _ t T _ hT

/-- What an attacking turn does to the roster: only the position of the target
differs, and there only `CurrentHP`. -/
theorem CombatantTurn_frame (s : FTurnBasedCombat) (a : Nat) :
    (CombatantTurn s a).Combatants = s.Combatants ∨
    ∃ A t T, s.Combatants[a]? = some A ∧ A.IsAlive = true ∧ t ≠ a ∧
      s.Combatants[t]? = some T ∧ T.Team ≠ A.Team ∧ T.IsAlive = true ∧
      (∀ j, j ≠ t → (CombatantTurn s a).Combatants[j]? = s.Combatants[j]?) ∧
      (CombatantTurn s a).Combatants[t]? = some
        { T with CurrentHP :=
            clamp (intSub T.CurrentHP (CalculateDamage s.RandomGenerator A).1) 0 T.MaxHP } := by
  rcases CombatantTurn_cases s a with heq | ⟨A, t, T, hA, halive, ht, hT, heq⟩
  · left; rw [heq]
  · right
    obtain ⟨hne, T2, hT2, hteam, hal⟩ := collectTargets_getElem? _ _ _ _ ht
    rw [hT] at hT2
    simp only [Option.some.injEq] at hT2
    subst hT2
    refine ⟨A, t, T, hA, halive, hne, hT, hteam, hal, ?_, ?_⟩
    · intro j hj
      rw [heq]
      exact List.getElem?_set_ne (Ne.symm hj)
    · rw [heq]
      exact List.getElem?_set_self (List.getElem?_eq_some.1 hT).1

/-- Claim C11 (frame of a turn): a turn keeps the sequence of the names, maximal
hit points, damage ranges and teams of the roster (hence its length and order),
and so do a round, any number of rounds and `RunCombat`; a turn either leaves
the roster as it was or changes `CurrentHP` at exactly one position, that of a
member of the team opposed to the attacker's, alive before the turn and other
than the attacker; the members of the attacker's team, the attacker included,
are left as they were. -/
theorem C11_turn_frame (s : FTurnBasedCombat) (a : Nat) :
    (CombatantTurn s a).Combatants.map FCombatant.fixedPart =
      s.Combatants.map FCombatant.fixedPart ∧
    (CombatantTurn s a).Combatants.length = s.Combatants.length ∧
    ((CombatantTurn s a).Combatants = s.Combatants ∨
      ∃ A t T, s.Combatants[a]? = some A ∧ A.IsAlive = true ∧ t ≠ a ∧
        s.Combatants[t]? = some T ∧ T.Team ≠ A.Team ∧ T.IsAlive = true ∧
        (∀ j, j ≠ t → (CombatantTurn s a).Combatants[j]? = s.Combatants[j]?) ∧
        (CombatantTurn s a).Combatants[t]? = some
          { T with CurrentHP :=
              clamp (intSub T.CurrentHP (CalculateDamage s.RandomGenerator A).1) 0 T.MaxHP }) ∧
    (∀ A, s.Combatants[a]? = some A → ∀ (j : Nat) (c : FCombatant), s.Combatants[j]? = some c → c.Team = A.Team →
      (CombatantTurn s a).Combatants[j]? = some c) ∧
    (∀ n i, (roundLoop n i s).Combatants.map FCombatant.fixedPart =
      s.Combatants.map FCombatant.fixedPart) ∧
    (∀ k, (afterRounds k s).Combatants.map FCombatant.fixedPart =
      s.Combatants.map FCombatant.fixedPart) ∧
    (∀ fuel s1, RunCombat fuel s = some s1 →
      s1.Combatants.map FCombatant.fixedPart = s.Combatants.map FCombatant.fixedPart ∧
      s1.Combatants.length = s.Combatants.length) := by
  have hturn : ∀ (u : FTurnBasedCombat) (b : Nat),
      u.Combatants.map FCombatant.fixedPart = s.Combatants.map FCombatant.fixedPart →
      (CombatantTurn u b).Combatants.map FCombatant.fixedPart =
        s.Combatants.map FCombatant.fixedPart :=
    fun u b hu => (fixedPart_CombatantTurn u b).trans hu
  have hround := roundLoop_induct
    (fun u => u.Combatants.map FCombatant.fixedPart = s.Combatants.map FCombatant.fixedPart)
    hturn
  have hafter := afterRounds_induct
    (fun u => u.Combatants.map FCombatant.fixedPart = s.Combatants.map FCombatant.fixedPart)
    hturn (fun _ hu => hu)
  refine ⟨fixedPart_CombatantTurn s a, ?_, CombatantTurn_frame s a, ?_,
    fun n i => hround n i s rfl, fun k => hafter k s rfl, ?_⟩
  · have := congrArg List.length (fixedPart_CombatantTurn s a)
    simpa using this
  · intro A hA j c hc hteam
    rcases CombatantTurn_frame s a with heq | ⟨A2, t, T, hA2, _, _, hT, hTteam, _, hrest, _⟩
    · rw [heq]; exact hc
    · rw [hA] at hA2
      simp only [Option.some.injEq] at hA2
      subst hA2
      have hjt : j ≠ t := by
        rintro rfl
        rw [hT] at hc
        simp only [Option.some.injEq] at hc
        subst hc
        exact hTteam hteam
      rw [hrest j hjt]; exact hc
  · intro fuel s1 hrun
    rw [(RunCombat_some fuel s s1 hrun).1]
    have h := hafter fuel s rfl
    refine ⟨h, ?_⟩
    have := congrArg List.length h
    simpa using this

/-- Claim C12 (team elimination detection): `IsTeamAlive` is true exactly when
some roster member of that team has `CurrentHP > 0`, `IsAlive` being exactly
`CurrentHP > 0`; in a roster without negative hit points `IsTeamAlive` is false
exactly when every member of that team has `CurrentHP = 0`. -/
theorem C12_team_elimination (s : FTurnBasedCombat) (team : ETeam) :
    (IsTeamAlive s team = true ↔
      ∃ c ∈ s.Combatants, c.Team = team ∧ 0 < c.CurrentHP) ∧
    (∀ c : FCombatant, c.IsAlive = true ↔ 0 < c.CurrentHP) ∧
    (∀ c : FCombatant, c.IsAlive = false ↔ c.CurrentHP ≤ 0) ∧
    ((∀ c ∈ s.Combatants, 0 ≤ c.CurrentHP) →
      (IsTeamAlive s team = false ↔
        ∀ c ∈ s.Combatants, c.Team = team → c.CurrentHP = 0)) := by
  have halive : ∀ c : FCombatant, c.IsAlive = true ↔ 0 < c.CurrentHP := by
    intro c; simp [FCombatant.IsAlive]
  have hdead : ∀ c : FCombatant, c.IsAlive = false ↔ c.CurrentHP ≤ 0 := by
    intro c; simp [FCombatant.IsAlive]
  refine ⟨?_, halive, hdead, ?_⟩
  · unfold IsTeamAlive
    rw [teamAliveIn_iff]
    constructor
    · rintro ⟨c, hc, ht, hal⟩; exact ⟨c, hc, ht, (halive c).1 hal⟩
    · rintro ⟨c, hc, ht, hal⟩; exact ⟨c, hc, ht, (halive c).2 hal⟩
  · intro hnn
    unfold IsTeamAlive
    rw [teamAliveIn_eq_false_iff]
    constructor
    · intro h c hc ht
      have h1 := (hdead c).1 (h c hc ht)
      have h2 := hnn c hc
      omega
    · intro h c hc ht
      exact (hdead c).2 (le_of_eq (h c hc ht))

/-- Claim C13 (dead combatants never act): when the roster member whose turn
arrives is not alive, the round goes on with the next position in the very same
engine (same roster, no draw consumed, no line written), and `CombatantTurn`
called for that member returns the engine as it was. -/
theorem C13_dead_never_act (s : FTurnBasedCombat) (i : Nat) (c : FCombatant)
    (hc : s.Combatants[i]? = some c) (hdead : c.IsAlive = false) :
    (∀ n, roundLoop (n + 1) i s = roundLoop n (i + 1) s) ∧
    CombatantTurn s i = s ∧
    (CombatantTurn s i).Combatants = s.Combatants ∧
    (CombatantTurn s i).RandomGenerator.pos = s.RandomGenerator.pos ∧
    (CombatantTurn s i).cout = s.cout := by
  have h : CombatantTurn s i = s := by
    unfold CombatantTurn
    simp [hc, hdead]
  refine ⟨fun n => roundLoop_dead n i s c hc hdead, h, ?_, ?_, ?_⟩ <;> rw [h]

/-- Instance of C13: the second round of a combat in which the first member
has been killed goes straight to the second position. -/
theorem C13_dead_never_act_witness :
    ([⟨"P", 10, 0, 1, 2, ETeam.Players⟩, ⟨"E", 10, 4, 1, 2, ETeam.Enemies⟩,
      ⟨"Q", 10, 6, 1, 2, ETeam.Players⟩] : List FCombatant)[0]? =
        some ⟨"P", 10, 0, 1, 2, ETeam.Players⟩ ∧
    (FCombatant.mk "P" 10 0 1 2 ETeam.Players).IsAlive = false ∧
    CombatantTurn ⟨[⟨"P", 10, 0, 1, 2, ETeam.Players⟩, ⟨"E", 10, 4, 1, 2, ETeam.Enemies⟩,
        ⟨"Q", 10, 6, 1, 2, ETeam.Players⟩], RandomSource.ofList [3, 19, 1], []⟩ 0 =
      ⟨[⟨"P", 10, 0, 1, 2, ETeam.Players⟩, ⟨"E", 10, 4, 1, 2, ETeam.Enemies⟩,
        ⟨"Q", 10, 6, 1, 2, ETeam.Players⟩], RandomSource.ofList [3, 19, 1], []⟩ :=
  ⟨by decide, by decide,
    (C13_dead_never_act
      ⟨[⟨"P", 10, 0, 1, 2, ETeam.Players⟩, ⟨"E", 10, 4, 1, 2, ETeam.Enemies⟩,
        ⟨"Q", 10, 6, 1, 2, ETeam.Players⟩], RandomSource.ofList [3, 19, 1], []⟩ 0
      ⟨"P", 10, 0, 1, 2, ETeam.Players⟩ (by decide) (by decide)).2.1⟩

/-- Claim C14 (strict progress per turn, amended): in a roster with hit points
within `[0, MaxHP]`, `1 <= MinDamage <= MaxDamage`, and `MaxHP` and twice
`MaxDamage` within the range of a 32-bit `int` for every combatant, the turn of
a living attacker whose target list is not empty makes the sum of the current
hit points strictly smaller, whatever the generator yields. -/
theorem C14_strict_progress (s : FTurnBasedCombat) (a : Nat) (A : FCombatant)
    (hhp : hpInRange s.Combatants) (hdmg : damageFrom 1 s.Combatants)
    (hfit : withinInt s.Combatants)
    (hA : s.Combatants[a]? = some A) (halive : A.IsAlive = true)
    (hne : collectTargets a A.Team 0 s.Combatants ≠ []) :
    totalHP (CombatantTurn s a).Combatants < totalHP s.Combatants ∧
    totalHP (CombatantTurn s a).Combatants + 1 ≤ totalHP s.Combatants ∧
    0 ≤ totalHP (CombatantTurn s a).Combatants := by
  have h := totalHP_CombatantTurn_lt s a A hhp hdmg hfit hA halive hne
  exact ⟨h, by omega, (totalHP_ge_member _ (hpInRange_CombatantTurn s a hhp)).1⟩

/-- Instance of C14: the first turn of the duel. -/
theorem C14_strict_progress_witness :
    hpInRange duel.Combatants ∧ damageFrom 1 duel.Combatants ∧ withinInt duel.Combatants ∧
    duel.Combatants[0]? = some ⟨"Attacker", 30, 30, 10, 10, ETeam.Players⟩ ∧
    (FCombatant.mk "Attacker" 30 30 10 10 ETeam.Players).IsAlive = true ∧
    collectTargets 0 ETeam.Players 0 duel.Combatants ≠ [] ∧
    totalHP duel.Combatants = 55 ∧ totalHP (CombatantTurn duel 0).Combatants = 45 ∧
    totalHP (CombatantTurn duel 0).Combatants < totalHP duel.Combatants :=
  ⟨by decide, by decide, by decide, by decide, by decide, by decide, by decide, by decide,
    (C14_strict_progress duel 0 ⟨"Attacker", 30, 30, 10, 10, ETeam.Players⟩
      (by decide) (by decide) (by decide) (by decide) (by decide) (by decide)).1⟩

/-- Claim C14 as first stated fails: in the overflowing duel, whose roster has
hit points within `[0, MaxHP]` and `1 <= MinDamage <= MaxDamage`, the first
member is alive and has a target, and its critical hit, of damage -294967296,
takes the sum of the hit points from 20 to 110. -/
theorem C14_strict_progress_counterexample :
    hpInRange overflowDuel.Combatants ∧ damageFrom 1 overflowDuel.Combatants ∧
    overflowDuel.Combatants[0]? =
      some ⟨"A", 100, 10, 2000000000, 2000000000, ETeam.Players⟩ ∧
    (FCombatant.mk "A" 100 10 2000000000 2000000000 ETeam.Players).IsAlive = true ∧
    collectTargets 0 ETeam.Players 0 overflowDuel.Combatants ≠ [] ∧
    totalHP overflowDuel.Combatants = 20 ∧
    totalHP (CombatantTurn overflowDuel 0).Combatants = 110 ∧
    ¬ (totalHP (CombatantTurn overflowDuel 0).Combatants < totalHP overflowDuel.Combatants) := by
  decide

/-! ## Hit points only go down -/

theorem hpNotAbove_refl (cs : List FCombatant) : hpNotAbove cs cs := by
  refine ⟨rfl, ?_⟩
  intro j c1 c h1 h
  rw [h1] at h
  simp only [Option.some.injEq] at h
  subst h
  exact le_refl _

theorem hpNotAbove_trans (cs2 cs1 cs : List FCombatant) (h21 : hpNotAbove cs2 cs1)
    (h10 : hpNotAbove cs1 cs) : hpNotAbove cs2 cs := by
  refine ⟨h21.1.trans h10.1, ?_⟩
  intro j c2 c h2 h
  have hj : j < cs1.length := by
    rw [h10.1]; exact (List.getElem?_eq_some.1 h).1
  have h1 : cs1[j]? = some cs1[j] := List.getElem?_eq_getElem hj
  exact le_trans (h21.2 j c2 _ h2 h1) (h10.2 j _ c h1 h)

theorem length_CombatantTurn (s : FTurnBasedCombat) (a : Nat) :
    (CombatantTurn s a).Combatants.length = s.Combatants.length := by
  have := congrArg List.length (fixedPart_CombatantTurn s a)
  simpa using this

theorem hpNotAbove_CombatantTurn (s : FTurnBasedCombat) (a : Nat)
    (hhp : hpInRange s.Combatants) (hdmg : damageFrom 0 s.Combatants)
    (hfit : withinInt s.Combatants) :
    hpNotAbove (CombatantTurn s a).Combatants s.Combatants := by
  refine ⟨length_CombatantTurn s a, ?_⟩
  intro j c1 c h1 h
  rcases CombatantTurn_frame s a with heq | ⟨A, t, T, hA, _, _, hT, _, _, hrest, htgt⟩
  · rw [heq] at h1
    exact (hpNotAbove_refl _).2 j c1 c h1 h
  · by_cases hjt : j = t
    · subst hjt
      rw [htgt] at h1
      rw [hT] at h
      simp only [Option.some.injEq] at h1 h
      subst h1 h
      have hTr := hhp T (List.getElem?_mem hT)
      obtain ⟨hd, hsub⟩ := intSub_damage s A T 0 (le_refl _) hhp hdmg hfit
        (List.getElem?_mem hA) (List.getElem?_mem hT)
      simp only [hsub, clamp]
      split_ifs <;> omega
    · rw [hrest j hjt] at h1
      exact (hpNotAbove_refl _).2 j c1 c h1 h

theorem hpNotAbove_loops (s : FTurnBasedCombat) (hhp : hpInRange s.Combatants)
    (hdmg : damageFrom 0 s.Combatants) (hfit : withinInt s.Combatants) (k n i : Nat) :
    hpInRange (roundLoop n i (afterRounds k s)).Combatants ∧
    damageFrom 0 (roundLoop n i (afterRounds k s)).Combatants ∧
    withinInt (roundLoop n i (afterRounds k s)).Combatants ∧
    hpNotAbove (roundLoop n i (afterRounds k s)).Combatants s.Combatants := by
  have hturn : ∀ (u : FTurnBasedCombat) (b : Nat),
      (hpInRange u.Combatants ∧ damageFrom 0 u.Combatants ∧ withinInt u.Combatants ∧
        hpNotAbove u.Combatants s.Combatants) →
      (hpInRange (CombatantTurn u b).Combatants ∧ damageFrom 0 (CombatantTurn u b).Combatants ∧
        withinInt (CombatantTurn u b).Combatants ∧
        hpNotAbove (CombatantTurn u b).Combatants s.Combatants) := by
    rintro u b ⟨h1, h2, hf, h3⟩
    exact ⟨hpInRange_CombatantTurn u b h1, damageFrom_CombatantTurn 0 u b h2,
      withinInt_CombatantTurn u b hf,
      hpNotAbove_trans _ _ _ (hpNotAbove_CombatantTurn u b h1 h2 hf) h3⟩
  have hafter := afterRounds_induct
    (fun u => hpInRange u.Combatants ∧ damageFrom 0 u.Combatants ∧ withinInt u.Combatants ∧
      hpNotAbove u.Combatants s.Combatants) hturn (fun _ hu => hu) k s
    ⟨hhp, hdmg, hfit, hpNotAbove_refl _⟩
  exact roundLoop_induct
    (fun u => hpInRange u.Combatants ∧ damageFrom 0 u.Combatants ∧ withinInt u.Combatants ∧
      hpNotAbove u.Combatants s.Combatants) hturn n i _ hafter

/-- A position holding a member that is not alive is never written: no turn
takes it as target. -/
theorem dead_kept_CombatantTurn (s u : FTurnBasedCombat) (a : Nat)
    (h : ∀ (j : Nat) (c : FCombatant), s.Combatants[j]? = some c → c.IsAlive = false →
      u.Combatants[j]? = some c) :
    ∀ (j : Nat) (c : FCombatant), s.Combatants[j]? = some c → c.IsAlive = false →
      (CombatantTurn u a).Combatants[j]? = some c := by
  intro j c hc hdead
  rcases CombatantTurn_frame u a with heq | ⟨A, t, T, _, _, _, hT, _, hTal, hrest, _⟩
  · rw [heq]; exact h j c hc hdead
  · have hjt : j ≠ t := by
      rintro rfl
      rw [h j c hc hdead] at hT
      simp only [Option.some.injEq] at hT
      rw [hT, hTal] at hdead
      exact absurd hdead (by decide)
    rw [hrest j hjt]
    exact h j c hc hdead

theorem dead_kept_loops (s : FTurnBasedCombat) (k n i : Nat) :
    ∀ (j : Nat) (c : FCombatant), s.Combatants[j]? = some c → c.IsAlive = false →
      (roundLoop n i (afterRounds k s)).Combatants[j]? = some c := by
  have hafter := afterRounds_induct
    (fun u => ∀ (j : Nat) (c : FCombatant), s.Combatants[j]? = some c → c.IsAlive = false →
      u.Combatants[j]? = some c)
    (fun u a hu => dead_kept_CombatantTurn s u a hu) (fun _ hu => hu) k s
    (fun _ _ hc _ => hc)
  exact roundLoop_induct
    (fun u => ∀ (j : Nat) (c : FCombatant), s.Combatants[j]? = some c → c.IsAlive = false →
      u.Combatants[j]? = some c)
    (fun u a hu => dead_kept_CombatantTurn s u a hu) n i _ hafter

/-- Claim C15 (damage only reduces hit points, amended): in a roster with hit
points within `[0, MaxHP]` and `0 <= MinDamage <= MaxDamage` for every
combatant, a combatant that is not alive is left as it is at every later point
of the combat, hence is never alive again; and when `MaxHP` and twice
`MaxDamage` are within the range of a 32-bit `int` for every combatant, no turn
raises the hit points of any position, neither from the initial state nor from
any state met during the combat, and at every point of `RunCombat`, its final
state included, every position has at most its initial hit points. -/
theorem C15_damage_only_reduces (s : FTurnBasedCombat) (hhp : hpInRange s.Combatants)
    (hdmg : damageFrom 0 s.Combatants) :
    (withinInt s.Combatants →
      (∀ a, hpNotAbove (CombatantTurn s a).Combatants s.Combatants) ∧
      (∀ k n i a, hpNotAbove
        (CombatantTurn (roundLoop n i (afterRounds k s)) a).Combatants
        (roundLoop n i (afterRounds k s)).Combatants) ∧
      (∀ k n i, hpNotAbove (roundLoop n i (afterRounds k s)).Combatants s.Combatants) ∧
      (∀ k, hpNotAbove (afterRounds k s).Combatants s.Combatants) ∧
      (∀ fuel s1, RunCombat fuel s = some s1 → hpNotAbove s1.Combatants s.Combatants)) ∧
    (∀ (k n i j : Nat) (c c1 : FCombatant), s.Combatants[j]? = some c → c.IsAlive = false →
      (roundLoop n i (afterRounds k s)).Combatants[j]? = some c1 → c1.IsAlive = false) ∧
    (∀ (fuel j : Nat) (s1 : FTurnBasedCombat) (c c1 : FCombatant),
      RunCombat fuel s = some s1 → s.Combatants[j]? = some c → c.IsAlive = false →
      s1.Combatants[j]? = some c1 → c1.IsAlive = false) := by
  refine ⟨?_, ?_, ?_⟩
  · intro hfit
    have hall := hpNotAbove_loops s hhp hdmg hfit
    have hafter : ∀ k, hpNotAbove (afterRounds k s).Combatants s.Combatants :=
      fun k => (hall k 0 0).2.2.2
    refine ⟨fun a => hpNotAbove_CombatantTurn s a hhp hdmg hfit,
      fun k n i a => hpNotAbove_CombatantTurn _ a (hall k n i).1 (hall k n i).2.1
        (hall k n i).2.2.1,
      fun k n i => (hall k n i).2.2.2, hafter, ?_⟩
    intro fuel s1 hrun
    rw [(RunCombat_some fuel s s1 hrun).1]
    exact hafter fuel
  · intro k n i j c c1 hc hdead hc1
    rw [dead_kept_loops s k n i j c hc hdead] at hc1
    simp only [Option.some.injEq] at hc1
    rw [← hc1]; exact hdead
  · intro fuel j s1 c c1 hrun hc hdead hc1
    rw [(RunCombat_some fuel s s1 hrun).1] at hc1
    have := dead_kept_loops s fuel 0 0 j c hc hdead
    rw [show roundLoop 0 0 (afterRounds fuel s) = afterRounds fuel s from rfl] at this
    rw [this] at hc1
    simp only [Option.some.injEq] at hc1
    rw [← hc1]; exact hdead

/-- Instance of C15 on the roster of the constructor. -/
theorem C15_damage_only_reduces_witness :
    hpInRange (FTurnBasedCombat.new (RandomSource.ofList [4, 19, 3])).Combatants ∧
    damageFrom 0 (FTurnBasedCombat.new (RandomSource.ofList [4, 19, 3])).Combatants ∧
    withinInt (FTurnBasedCombat.new (RandomSource.ofList [4, 19, 3])).Combatants ∧
    (CombatantTurn (FTurnBasedCombat.new (RandomSource.ofList [4, 19, 3])) 0).Combatants.map
      (fun c => c.CurrentHP) = [100, 120, 100, 120, 100, 120, 100, 96] ∧
    (∀ a, hpNotAbove
      (CombatantTurn (FTurnBasedCombat.new (RandomSource.ofList [4, 19, 3])) a).Combatants
      (FTurnBasedCombat.new (RandomSource.ofList [4, 19, 3])).Combatants) :=
  ⟨by decide, by decide, by decide, by decide,
    ((C15_damage_only_reduces (FTurnBasedCombat.new (RandomSource.ofList [4, 19, 3]))
      (by decide) (by decide)).1 (by decide)).1⟩

/-- Claim C15 as first stated fails: in the overflowing duel, whose roster has
hit points within `[0, MaxHP]` and `0 <= MinDamage <= MaxDamage`, the critical
hit of the first member, of damage -294967296, raises the hit points of the
second member from 10 to 100. -/
theorem C15_damage_only_reduces_counterexample :
    hpInRange overflowDuel.Combatants ∧ damageFrom 0 overflowDuel.Combatants ∧
    overflowDuel.Combatants.map (fun c => c.CurrentHP) = [10, 10] ∧
    (CombatantTurn overflowDuel 0).Combatants.map (fun c => c.CurrentHP) = [10, 100] ∧
    ¬ hpNotAbove (CombatantTurn overflowDuel 0).Combatants overflowDuel.Combatants := by
  refine ⟨by decide, by decide, by decide, by decide, ?_⟩
  intro h
  have h1 := h.2 1 ⟨"B", 100, 100, 2000000000, 2000000000, ETeam.Enemies⟩
    ⟨"B", 100, 10, 2000000000, 2000000000, ETeam.Enemies⟩ (by decide) (by decide)
  exact absurd h1 (by decide)

/-! ## The output of a combat -/

theorem LogStatus_cout (s : FTurnBasedCombat) :
    (LogStatus s).cout = s.cout ++ [Event.status (statusRows s.Combatants)] := rfl

theorem LogStatus_Combatants (s : FTurnBasedCombat) :
    (LogStatus s).Combatants = s.Combatants := rfl

/-- A turn writes nothing or one turn line. -/
theorem CombatantTurn_cout (s : FTurnBasedCombat) (a : Nat) :
    (CombatantTurn s a).cout = s.cout ∨
      ∃ x y d, (CombatantTurn s a).cout = s.cout ++ [Event.attack x y d] := by
  rcases CombatantTurn_cases s a with heq | ⟨A, t, T, _, _, _, _, heq⟩
  · left; rw [heq]
  · right; exact ⟨_, _, _, by rw [heq]⟩

theorem filter_isStatus_CombatantTurn (s : FTurnBasedCombat) (a : Nat) :
    (CombatantTurn s a).cout.filter Event.isStatus = s.cout.filter Event.isStatus := by
  rcases CombatantTurn_cout s a with h | ⟨x, y, d, h⟩
  · rw [h]
  · rw [h, List.filter_append]
    simp [Event.isStatus]

theorem filter_isStatus_roundLoop (n i : Nat) (s : FTurnBasedCombat) :
    (roundLoop n i s).cout.filter Event.isStatus = s.cout.filter Event.isStatus :=
  roundLoop_induct
    (fun u => u.cout.filter Event.isStatus = s.cout.filter Event.isStatus)
    (fun u b hu => (filter_isStatus_CombatantTurn u b).trans hu) n i s rfl

theorem filter_isStatus_runRound (s : FTurnBasedCombat) :
    (runRound s).cout.filter Event.isStatus =
      s.cout.filter Event.isStatus ++ [Event.status (statusRows (runRound s).Combatants)] := by
  unfold runRound
  rw [LogStatus_cout, List.filter_append, filter_isStatus_roundLoop, LogStatus_Combatants]
  simp [Event.isStatus]

theorem filter_isStatus_afterRounds :
    ∀ (k : Nat) (s : FTurnBasedCombat),
      (afterRounds k s).cout.filter Event.isStatus =
        s.cout.filter Event.isStatus ++ roundSnapshots k s := by
  intro k
  induction k with
  | zero => intro s; simp [afterRounds, roundSnapshots]
  | succ k ih =>
    intro s
    cases hb : bothTeamsAlive s with
    | false => simp [afterRounds, roundSnapshots, hb]
    | true =>
      simp only [afterRounds, roundSnapshots, hb, if_true]
      rw [ih, filter_isStatus_runRound, List.append_assoc]
      rfl

theorem length_roundSnapshots :
    ∀ (k : Nat) (s : FTurnBasedCombat), (roundSnapshots k s).length = roundsStarted k s := by
  intro k
  induction k with
  | zero => intro s; rfl
  | succ k ih =>
    intro s
    cases hb : bothTeamsAlive s with
    | false => simp [roundSnapshots, roundsStarted, hb]
    | true => simp [roundSnapshots, roundsStarted, hb, ih]

/-- Claim C16 (snapshot per round): a turn and the `for` loop write no status
block; the body of the `while` loop ends, whether its round ran to the end of
the roster or was cut short, by exactly one status block, whose rows are the
name, the team text (`Players` or `Enemies`), the current and the maximal hit
points of every roster member, in roster order, as the round leaves them; hence
the status blocks written by `RunCombat` are, in order, those of the rounds it
started, one each, and none is written when no round is started. -/
theorem C16_snapshot_per_round (s : FTurnBasedCombat) :
    (∀ a, (CombatantTurn s a).cout.filter Event.isStatus = s.cout.filter Event.isStatus) ∧
    (∀ n i, (roundLoop n i s).cout.filter Event.isStatus = s.cout.filter Event.isStatus) ∧
    (runRound s).cout = (roundLoop s.Combatants.length 0 s).cout ++
      [Event.status (statusRows (runRound s).Combatants)] ∧
    (runRound s).Combatants = (roundLoop s.Combatants.length 0 s).Combatants ∧
    (∀ cs : List FCombatant,
      statusRows cs = cs.map (fun c => (c.Name, TeamToString c.Team, c.CurrentHP, c.MaxHP)) ∧
      (statusRows cs).length = cs.length) ∧
    (∀ team : ETeam, (TeamToString team = "Players" ↔ team = ETeam.Players) ∧
      (TeamToString team = "Enemies" ↔ team = ETeam.Enemies)) ∧
    (∀ k, (afterRounds k s).cout.filter Event.isStatus =
      s.cout.filter Event.isStatus ++ roundSnapshots k s) ∧
    (∀ k, (roundSnapshots k s).length = roundsStarted k s) ∧
    (∀ fuel s1, RunCombat fuel s = some s1 →
      s1.cout.filter Event.isStatus = s.cout.filter Event.isStatus ++ roundSnapshots fuel s ∧
      (s1.cout.filter Event.isStatus).length =
        (s.cout.filter Event.isStatus).length + roundsStarted fuel s) ∧
    (bothTeamsAlive s = false → ∀ fuel s1, RunCombat fuel s = some s1 → s1.cout = s.cout) := by
  refine ⟨filter_isStatus_CombatantTurn s, fun n i => filter_isStatus_roundLoop n i s, rfl, rfl,
    fun cs => ⟨rfl, by simp [statusRows]⟩, ?_, fun k => filter_isStatus_afterRounds k s,
    fun k => length_roundSnapshots k s, ?_, ?_⟩
  · intro team
    cases team <;> simp [TeamToString]
  · intro fuel s1 hrun
    rw [(RunCombat_some fuel s s1 hrun).1, filter_isStatus_afterRounds, List.length_append,
      length_roundSnapshots]
    exact ⟨rfl, rfl⟩
  · intro hb fuel s1 hrun
    rw [RunCombat_of_not_both fuel s hb] at hrun
    simp only [Option.some.injEq] at hrun
    rw [← hrun]

/-- The three status blocks of the duel. -/
theorem duel_snapshots :
    (RunCombat 3 duel).map (fun s => s.cout.filter Event.isStatus) = some
      [Event.status [("Attacker", "Players", 25, 30), ("Target", "Enemies", 15, 25)],
       Event.status [("Attacker", "Players", 20, 30), ("Target", "Enemies", 5, 25)],
       Event.status [("Attacker", "Players", 20, 30), ("Target", "Enemies", 0, 25)]] := by
  decide

/-! ## The choice of the target -/

theorem sizeMinusOne_zero : sizeMinusOne 0 = 2 ^ 64 - 1 := by decide

theorem sizeMinusOne_lt (n : Nat) (h : 0 < n) : sizeMinusOne n < n := by
  have := sizeMinusOne_le n h
  omega

/-- Claim C17 (target choice in bounds): when a turn reaches the target draw
(living attacker, target list not empty) the list has at least one element, the
upper end `size - 1` of the index range does not wrap around (it is `size - 1`
for a size that fits `size_t`, and always below the size, whereas it would be
`2 ^ 64 - 1` for an empty list), the index drawn is within the range, every
index of the range selects an element of the list, which is a position of the
roster, and the turn changes the roster at the position selected by the index
drawn and nowhere else. -/
theorem C17_target_choice_in_bounds (s : FTurnBasedCombat) (a : Nat) (A : FCombatant)
    (hA : s.Combatants[a]? = some A) (halive : A.IsAlive = true)
    (hne : collectTargets a A.Team 0 s.Combatants ≠ []) :
    0 < (collectTargets a A.Team 0 s.Combatants).length ∧
    ((collectTargets a A.Team 0 s.Combatants).length < 2 ^ 64 →
      sizeMinusOne (collectTargets a A.Team 0 s.Combatants).length =
        (collectTargets a A.Team 0 s.Combatants).length - 1) ∧
    sizeMinusOne (collectTargets a A.Team 0 s.Combatants).length <
      (collectTargets a A.Team 0 s.Combatants).length ∧
    sizeMinusOne 0 = 2 ^ 64 - 1 ∧
    (∀ g : RandomSource,
      (uniformSize 0 (sizeMinusOne (collectTargets a A.Team 0 s.Combatants).length) g).1 ≤
        sizeMinusOne (collectTargets a A.Team 0 s.Combatants).length) ∧
    (∀ k, k ≤ sizeMinusOne (collectTargets a A.Team 0 s.Combatants).length →
      ∃ t T, (collectTargets a A.Team 0 s.Combatants)[k]? = some t ∧
        t ∈ collectTargets a A.Team 0 s.Combatants ∧ s.Combatants[t]? = some T) ∧
    (∃ t T, (collectTargets a A.Team 0 s.Combatants)[(uniformSize 0
          (sizeMinusOne (collectTargets a A.Team 0 s.Combatants).length)
          (CalculateDamage s.RandomGenerator A).2).1]? = some t ∧
      t ∈ collectTargets a A.Team 0 s.Combatants ∧
      s.Combatants[t]? = some T ∧
      (CombatantTurn s a).Combatants = s.Combatants.set t
        { T with CurrentHP :=
            clamp (intSub T.CurrentHP (CalculateDamage s.RandomGenerator A).1) 0 T.MaxHP } ∧
      ∀ j, j ≠ t → (CombatantTurn s a).Combatants[j]? = s.Combatants[j]?) := by
  have hpos : 0 < (collectTargets a A.Team 0 s.Combatants).length := List.length_pos.2 hne
  refine ⟨hpos, fun hfit => sizeMinusOne_eq _ hpos (le_of_lt hfit), sizeMinusOne_lt _ hpos,
    sizeMinusOne_zero, fun g => uniformSize_fst_le _ g, ?_, ?_⟩
  · intro k hk
    have hlt : k < (collectTargets a A.Team 0 s.Combatants).length :=
      lt_of_le_of_lt hk (sizeMinusOne_lt _ hpos)
    have hk2 : (collectTargets a A.Team 0 s.Combatants)[k]? =
        some (collectTargets a A.Team 0 s.Combatants)[k] := List.getElem?_eq_getElem hlt
    have hmem := List.getElem?_mem hk2
    obtain ⟨_, T, hT, _⟩ := collectTargets_getElem? _ _ _ _ hmem
    exact ⟨_, T, hk2, hmem, hT⟩
  · obtain ⟨t, T, ht, hT, heq⟩ := CombatantTurn_attack s a A hA halive hne
    refine ⟨t, T, ht, List.getElem?_mem ht, hT, by rw [heq], ?_⟩
    intro j hj
    rw [heq]
    exact List.getElem?_set_ne (Ne.symm hj)

/-- Instance of C17: the first turn of the roster of the constructor, with a
generator whose third outcome selects the last of the four targets. -/
theorem C17_target_choice_in_bounds_witness :
    (FTurnBasedCombat.new (RandomSource.ofList [4, 19, 7])).Combatants[0]? =
      some ⟨"Player1", 100, 100, 8, 15, ETeam.Players⟩ ∧
    (FCombatant.mk "Player1" 100 100 8 15 ETeam.Players).IsAlive = true ∧
    collectTargets 0 ETeam.Players 0
      (FTurnBasedCombat.new (RandomSource.ofList [4, 19, 7])).Combatants = [1, 3, 5, 7] ∧
    sizeMinusOne (collectTargets 0 ETeam.Players 0
      (FTurnBasedCombat.new (RandomSource.ofList [4, 19, 7])).Combatants).length <
      (collectTargets 0 ETeam.Players 0
        (FTurnBasedCombat.new (RandomSource.ofList [4, 19, 7])).Combatants).length :=
  ⟨by decide, by decide, by decide,
    (C17_target_choice_in_bounds (FTurnBasedCombat.new (RandomSource.ofList [4, 19, 7])) 0
      ⟨"Player1", 100, 100, 8, 15, ETeam.Players⟩ (by decide) (by decide) (by decide)).2.2.1⟩

/-! ## The turns issued by a combat -/

theorem roundCalls_none (n i : Nat) (s : FTurnBasedCombat) (h : s.Combatants[i]? = none) :
    roundCalls (n + 1) i s = [] := by
  simp only [roundCalls, h]

theorem roundCalls_dead (n i : Nat) (s : FTurnBasedCombat) (c : FCombatant)
    (h : s.Combatants[i]? = some c) (hc : c.IsAlive = false) :
    roundCalls (n + 1) i s = roundCalls n (i + 1) s := by
  simp only [roundCalls, h, hc, Bool.not_false, if_true]

theorem roundCalls_break (n i : Nat) (s : FTurnBasedCombat) (c : FCombatant)
    (h : s.Combatants[i]? = some c) (hc : c.IsAlive = true)
    (hb : bothTeamsAlive (CombatantTurn s i) = false) :
    roundCalls (n + 1) i s = [(s, i)] := by
  have hb2 : (!IsTeamAlive (CombatantTurn s i) ETeam.Players ||
      !IsTeamAlive (CombatantTurn s i) ETeam.Enemies) = true := by
    unfold bothTeamsAlive at hb
    revert hb
    cases IsTeamAlive (CombatantTurn s i) ETeam.Players <;>
      cases IsTeamAlive (CombatantTurn s i) ETeam.Enemies <;> simp
  simp only [roundCalls, h, hc, Bool.not_true, Bool.false_eq_true, if_false, hb2, if_true]

theorem roundCalls_continue (n i : Nat) (s : FTurnBasedCombat) (c : FCombatant)
    (h : s.Combatants[i]? = some c) (hc : c.IsAlive = true)
    (hb : bothTeamsAlive (CombatantTurn s i) = true) :
    roundCalls (n + 1) i s = (s, i) :: roundCalls n (i + 1) (CombatantTurn s i) := by
  have hb2 : (!IsTeamAlive (CombatantTurn s i) ETeam.Players ||
      !IsTeamAlive (CombatantTurn s i) ETeam.Enemies) = false := by
    unfold bothTeamsAlive at hb
    revert hb
    cases IsTeamAlive (CombatantTurn s i) ETeam.Players <;>
      cases IsTeamAlive (CombatantTurn s i) ETeam.Enemies <;> simp
  simp only [roundCalls, h, hc, Bool.not_true, Bool.false_eq_true, if_false, hb2]

/-- With both teams alive the turn of a living roster member attacks. -/
theorem attackingCall_of_alive (s : FTurnBasedCombat) (i : Nat) (c : FCombatant)
    (hboth : bothTeamsAlive s = true) (h : s.Combatants[i]? = some c)
    (hc : c.IsAlive = true) : attackingCall s i := by
  have hne := collectTargets_ne_nil s i c hboth h
  obtain ⟨t, T, ht, hT, heq⟩ := CombatantTurn_attack s i c h hc hne
  exact ⟨hboth, c, T, t, h, hc, hne, List.getElem?_mem ht, hT, by rw [heq], by rw [heq]⟩

theorem attackingCall_counts (s : FTurnBasedCombat) (i : Nat) (h : attackingCall s i) :
    ((CombatantTurn s i).cout.filter Event.isAttack).length =
      (s.cout.filter Event.isAttack).length + 1 ∧
    (CombatantTurn s i).RandomGenerator.pos = s.RandomGenerator.pos + 3 := by
  obtain ⟨_, A, T, t, _, _, _, _, _, hcout, hpos⟩ := h
  refine ⟨?_, hpos⟩
  rw [hcout, List.filter_append, List.length_append]
  simp [Event.isAttack]

theorem roundCalls_spec :
    ∀ (n i : Nat) (s : FTurnBasedCombat), bothTeamsAlive s = true →
      (∀ p ∈ roundCalls n i s, attackingCall p.1 p.2) ∧
      ((roundLoop n i s).cout.filter Event.isAttack).length =
        (s.cout.filter Event.isAttack).length + (roundCalls n i s).length ∧
      (roundLoop n i s).RandomGenerator.pos =
        s.RandomGenerator.pos + 3 * (roundCalls n i s).length := by
  intro n
  induction n with
  | zero => intro i s _; simp [roundCalls, roundLoop]
  | succ n ih =>
    intro i s hboth
    cases h : s.Combatants[i]? with
    | none => rw [roundLoop_none n i s h, roundCalls_none n i s h]; simp
    | some c =>
      cases hc : c.IsAlive with
      | false =>
        rw [roundLoop_dead n i s c h hc, roundCalls_dead n i s c h hc]
        exact ih (i + 1) s hboth
      | true =>
        have hcall := attackingCall_of_alive s i c hboth h hc
        obtain ⟨hcnt, hpos⟩ := attackingCall_counts s i hcall
        cases hb : bothTeamsAlive (CombatantTurn s i) with
        | false =>
          rw [roundLoop_break n i s c h hc hb, roundCalls_break n i s c h hc hb]
          refine ⟨?_, by rw [hcnt]; rfl, by rw [hpos]; rfl⟩
          intro p hp
          rw [List.mem_singleton] at hp
          subst hp
          exact hcall
        | true =>
          rw [roundLoop_continue n i s c h hc hb, roundCalls_continue n i s c h hc hb]
          obtain ⟨h1, h2, h3⟩ := ih (i + 1) (CombatantTurn s i) hb
          refine ⟨?_, ?_, ?_⟩
          · intro p hp
            rcases List.mem_cons.1 hp with rfl | hp
            · exact hcall
            · exact h1 p hp
          · rw [h2, hcnt, List.length_cons]; omega
          · rw [h3, hpos, List.length_cons]; omega

/-- A round started with both teams alive issues at least one turn. -/
theorem roundCalls_ne_nil :
    ∀ (n i : Nat) (s : FTurnBasedCombat),
      (∃ j c, i ≤ j ∧ j < i + n ∧ s.Combatants[j]? = some c ∧ c.IsAlive = true) →
      roundCalls n i s ≠ [] := by
  intro n
  induction n with
  | zero =>
    rintro i s ⟨j, c, h1, h2, _⟩
    omega
  | succ n ih =>
    rintro i s ⟨j, c, h1, h2, hj, hal⟩
    cases h : s.Combatants[i]? with
    | none =>
      have hlen : s.Combatants.length ≤ i := List.getElem?_eq_none_iff.1 h
      have hjlt : j < s.Combatants.length := (List.getElem?_eq_some.1 hj).1
      omega
    | some d =>
      cases hd : d.IsAlive with
      | false =>
        rw [roundCalls_dead n i s d h hd]
        have hji : j ≠ i := by
          rintro rfl
          rw [h] at hj
          simp only [Option.some.injEq] at hj
          subst hj
          rw [hd] at hal
          exact absurd hal (by decide)
        exact ih (i + 1) s ⟨j, c, by omega, by omega, hj, hal⟩
      | true =>
        cases hb : bothTeamsAlive (CombatantTurn s i) with
        | false => rw [roundCalls_break n i s d h hd hb]; simp
        | true => rw [roundCalls_continue n i s d h hd hb]; simp

theorem combatCalls_spec :
    ∀ (k : Nat) (s : FTurnBasedCombat),
      (∀ p ∈ combatCalls k s, attackingCall p.1 p.2) ∧
      ((afterRounds k s).cout.filter Event.isAttack).length =
        (s.cout.filter Event.isAttack).length + (combatCalls k s).length ∧
      (afterRounds k s).RandomGenerator.pos =
        s.RandomGenerator.pos + 3 * (combatCalls k s).length := by
  intro k
  induction k with
  | zero => intro s; simp [combatCalls, afterRounds]
  | succ k ih =>
    intro s
    cases hb : bothTeamsAlive s with
    | false => simp [combatCalls, afterRounds, hb]
    | true =>
      simp only [combatCalls, afterRounds, hb, if_true]
      obtain ⟨r1, r2, r3⟩ := roundCalls_spec s.Combatants.length 0 s hb
      obtain ⟨h1, h2, h3⟩ := ih (runRound s)
      have hcout : (runRound s).cout.filter Event.isAttack =
          (roundLoop s.Combatants.length 0 s).cout.filter Event.isAttack := by
        unfold runRound
        rw [LogStatus_cout, List.filter_append]
        simp [Event.isAttack]
      have hpos : (runRound s).RandomGenerator.pos =
          (roundLoop s.Combatants.length 0 s).RandomGenerator.pos := rfl
      refine ⟨?_, ?_, ?_⟩
      · intro p hp
        rcases List.mem_append.1 hp with hp | hp
        · exact r1 p hp
        · exact h1 p hp
      · rw [h2, hcout, r2, List.length_append]; omega
      · rw [h3, hpos, r3, List.length_append]; omega

/-- Claim C18 (every turn issued by `RunCombat` has a target): each call of
`CombatantTurn` made by `RunCombat` is made while both teams have a living
member, for a living roster member whose target list is not empty, and writes
exactly one turn line after exactly three draws; so the turn lines written and
the draws consumed by `RunCombat` are one and three per call. -/
theorem C18_every_turn_has_target (s : FTurnBasedCombat) :
    (∀ k, ∀ p ∈ combatCalls k s,
      bothTeamsAlive p.1 = true ∧
      ∃ (A T : FCombatant) (t : Nat), p.1.Combatants[p.2]? = some A ∧ A.IsAlive = true ∧
        collectTargets p.2 A.Team 0 p.1.Combatants ≠ [] ∧
        t ∈ collectTargets p.2 A.Team 0 p.1.Combatants ∧ p.1.Combatants[t]? = some T ∧
        (CombatantTurn p.1 p.2).cout =
          p.1.cout ++ [Event.attack A.Name T.Name (CalculateDamage p.1.RandomGenerator A).1] ∧
        (CombatantTurn p.1 p.2).RandomGenerator.pos = p.1.RandomGenerator.pos + 3) ∧
    (∀ k, ((afterRounds k s).cout.filter Event.isAttack).length =
      (s.cout.filter Event.isAttack).length + (combatCalls k s).length) ∧
    (∀ k, (afterRounds k s).RandomGenerator.pos =
      s.RandomGenerator.pos + 3 * (combatCalls k s).length) ∧
    (∀ fuel s1, RunCombat fuel s = some s1 →
      (s1.cout.filter Event.isAttack).length =
        (s.cout.filter Event.isAttack).length + (combatCalls fuel s).length ∧
      s1.RandomGenerator.pos = s.RandomGenerator.pos + 3 * (combatCalls fuel s).length) ∧
    (bothTeamsAlive s = true → roundCalls s.Combatants.length 0 s ≠ []) := by
  refine ⟨fun k p hp => (combatCalls_spec k s).1 p hp, fun k => (combatCalls_spec k s).2.1,
    fun k => (combatCalls_spec k s).2.2, ?_, ?_⟩
  · intro fuel s1 hrun
    rw [(RunCombat_some fuel s s1 hrun).1]
    exact (combatCalls_spec fuel s).2
  · intro hb
    obtain ⟨j, c, hj, hc, hal⟩ := exists_alive_of_bothTeamsAlive s hb
    exact roundCalls_ne_nil _ 0 s ⟨j, c, Nat.zero_le _, by omega, hc, hal⟩

/-- The five turns of the duel: positions 0, 1, 0, 1, 0. -/
theorem duel_calls :
    (combatCalls 3 duel).map (fun p => p.2) = [0, 1, 0, 1, 0] ∧
    (RunCombat 3 duel).map (fun s => (s.cout.filter Event.isAttack).length) = some 5 ∧
    (RunCombat 3 duel).map (fun s => s.RandomGenerator.pos) = some 15 := by
  decide

/-! ## The number of rounds -/

theorem roundsStarted_le :
    ∀ (k : Nat) (s : FTurnBasedCombat), hpInRange s.Combatants → damageFrom 1 s.Combatants →
      withinInt s.Combatants → (roundsStarted k s : Int) ≤ totalHP s.Combatants := by
  intro k
  induction k with
  | zero =>
    intro s hhp _ _
    simpa [roundsStarted] using (totalHP_ge_member _ hhp).1
  | succ k ih =>
    intro s hhp hdmg hfit
    cases hb : bothTeamsAlive s with
    | false => simpa [roundsStarted, hb] using (totalHP_ge_member _ hhp).1
    | true =>
      obtain ⟨h1, h2, hf, h3⟩ := runRound_totalHP_lt s hhp hdmg hfit hb
      have := ih (runRound s) h1 h2 hf
      simp only [roundsStarted, hb, if_true]
      push_cast
      omega

/-- Claim C19 (bounded number of rounds, amended): from a roster with a living
member on each team, hit points within `[0, MaxHP]`,
`1 <= MinDamage <= MaxDamage`, and `MaxHP` and twice `MaxDamage` within the
range of a 32-bit `int` for every combatant, whatever the generator yields, the
number of rounds started by `RunCombat`, which is the number of status blocks it
writes, is at least one and at most the initial sum of the current hit points;
that many rounds are enough for `RunCombat` to return; and every round started
with both teams alive issues at least one attacking turn. -/
theorem C19_bounded_rounds (s : FTurnBasedCombat) (hboth : bothTeamsAlive s = true)
    (hhp : hpInRange s.Combatants) (hdmg : damageFrom 1 s.Combatants)
    (hfit : withinInt s.Combatants) :
    (∀ k, (roundsStarted k s : Int) ≤ totalHP s.Combatants) ∧
    (∀ k, 1 ≤ roundsStarted (k + 1) s) ∧
    (∀ fuel s1, RunCombat fuel s = some s1 →
      (s1.cout.filter Event.isStatus).length =
        (s.cout.filter Event.isStatus).length + roundsStarted fuel s ∧
      ((s1.cout.filter Event.isStatus).length : Int) ≤
        (s.cout.filter Event.isStatus).length + totalHP s.Combatants) ∧
    (∃ s1, RunCombat (totalHP s.Combatants).toNat s = some s1) ∧
    (∀ k, bothTeamsAlive (afterRounds k s) = true →
      roundCalls (afterRounds k s).Combatants.length 0 (afterRounds k s) ≠ [] ∧
      (∀ p ∈ roundCalls (afterRounds k s).Combatants.length 0 (afterRounds k s),
        attackingCall p.1 p.2) ∧
      ((afterRounds k s).cout.filter Event.isAttack).length <
        ((runRound (afterRounds k s)).cout.filter Event.isAttack).length) := by
  have hsnap : ∀ fuel s1, RunCombat fuel s = some s1 →
      (s1.cout.filter Event.isStatus).length =
        (s.cout.filter Event.isStatus).length + roundsStarted fuel s := by
    intro fuel s1 hrun
    rw [(RunCombat_some fuel s s1 hrun).1, filter_isStatus_afterRounds, List.length_append,
      length_roundSnapshots]
  refine ⟨fun k => roundsStarted_le k s hhp hdmg hfit, ?_, ?_, ?_, ?_⟩
  · intro k
    simp [roundsStarted, hboth]
  · intro fuel s1 hrun
    refine ⟨hsnap fuel s1 hrun, ?_⟩
    have h1 := hsnap fuel s1 hrun
    have h2 := roundsStarted_le fuel s hhp hdmg hfit
    rw [h1]
    push_cast
    omega
  · exact RunCombat_terminates_within _ s hhp hdmg hfit
      (by rw [Int.toNat_of_nonneg (totalHP_ge_member _ hhp).1])
  · intro k hk
    obtain ⟨j, c, hj, hc, hal⟩ := exists_alive_of_bothTeamsAlive _ hk
    have hne := roundCalls_ne_nil (afterRounds k s).Combatants.length 0 (afterRounds k s)
      ⟨j, c, Nat.zero_le _, by omega, hc, hal⟩
    obtain ⟨r1, r2, _⟩ := roundCalls_spec (afterRounds k s).Combatants.length 0
      (afterRounds k s) hk
    refine ⟨hne, r1, ?_⟩
    have hcout : (runRound (afterRounds k s)).cout.filter Event.isAttack =
        (roundLoop (afterRounds k s).Combatants.length 0
          (afterRounds k s)).cout.filter Event.isAttack := by
      unfold runRound
      rw [LogStatus_cout, List.filter_append]
      simp [Event.isAttack]
    have hlen : 0 < (roundCalls (afterRounds k s).Combatants.length 0
        (afterRounds k s)).length := List.length_pos.2 hne
    rw [hcout, r2]
    omega

/-- Instance of C19 on the duel: three rounds, the sum of the hit points
being 55. -/
theorem C19_bounded_rounds_witness :
    bothTeamsAlive duel = true ∧ hpInRange duel.Combatants ∧ damageFrom 1 duel.Combatants ∧
    withinInt duel.Combatants ∧
    totalHP duel.Combatants = 55 ∧ roundsStarted 55 duel = 3 ∧
    (∀ k, (roundsStarted k duel : Int) ≤ totalHP duel.Combatants) :=
  ⟨by decide, by decide, by decide, by decide, by decide, by decide,
    (C19_bounded_rounds duel (by decide) (by decide) (by decide) (by decide)).1⟩

/-- Claim C19 as first stated fails: the overflowing duel has a living member on
each team, hit points within `[0, MaxHP]` and `1 <= MinDamage <= MaxDamage`, the
sum of its hit points is 20, and 21 rounds are started, each writing its status
block, with both teams still alive after them. -/
theorem C19_bounded_rounds_counterexample :
    bothTeamsAlive overflowDuel = true ∧ hpInRange overflowDuel.Combatants ∧
    damageFrom 1 overflowDuel.Combatants ∧ totalHP overflowDuel.Combatants = 20 ∧
    roundsStarted 21 overflowDuel = 21 ∧
    ((afterRounds 21 overflowDuel).cout.filter Event.isStatus).length = 21 ∧
    bothTeamsAlive (afterRounds 21 overflowDuel) = true ∧
    ¬ ((roundsStarted 21 overflowDuel : Int) ≤ totalHP overflowDuel.Combatants) := by
  decide

/-! ## The self-exclusion test -/

theorem collectTargets_eq_noSelfCheck (a : Nat) (team : ETeam) (cs : List FCombatant) :
    ∀ j, (∀ T, j ≤ a → cs[a - j]? = some T → T.Team = team) →
      collectTargets a team j cs = collectTargetsNoSelfCheck team j cs := by
  induction cs with
  | nil => intro j _; rfl
  | cons c rest ih =>
    intro j h
    have hrest : ∀ T, j + 1 ≤ a → rest[a - (j + 1)]? = some T → T.Team = team := by
      intro T hle hT
      refine h T (by omega) ?_
      have : a - j = (a - (j + 1)) + 1 := by omega
      rw [this, List.getElem?_cons_succ]
      exact hT
    unfold collectTargets collectTargetsNoSelfCheck
    rw [ih (j + 1) hrest]
    by_cases hja : j = a
    · have hc : c.Team = team := h c (le_of_eq hja) (by subst hja; simp)
      rw [if_pos hja, if_pos hc]
    · rw [if_neg hja]

theorem mem_collectTargetsNoSelfCheck (team : ETeam) (cs : List FCombatant) :
    ∀ (j t : Nat), t ∈ collectTargetsNoSelfCheck team j cs ↔
      j ≤ t ∧ ∃ T, cs[t - j]? = some T ∧ T.Team ≠ team ∧ T.IsAlive = true := by
  induction cs with
  | nil => intro j t; simp [collectTargetsNoSelfCheck]
  | cons c rest ih =>
    intro j t
    have key : ∀ t, t ∈ collectTargetsNoSelfCheck team (j + 1) rest ↔
        j ≤ t ∧ t ≠ j ∧ ∃ T, (c :: rest)[t - j]? = some T ∧ T.Team ≠ team ∧
          T.IsAlive = true := by
      intro t
      rw [ih (j + 1) t]
      constructor
      · rintro ⟨h1, T, h3, h4⟩
        refine ⟨by omega, by omega, T, ?_, h4⟩
        have : t - j = (t - (j + 1)) + 1 := by omega
        rw [this, List.getElem?_cons_succ]; exact h3
      · rintro ⟨h1, h1', T, h3, h4⟩
        refine ⟨by omega, T, ?_, h4⟩
        have : t - j = (t - (j + 1)) + 1 := by omega
        rw [this, List.getElem?_cons_succ] at h3; exact h3
    have hhead : ∀ T, (c :: rest)[j - j]? = some T → T = c := by
      intro T hT
      simp only [Nat.sub_self, List.getElem?_cons_zero, Option.some.injEq] at hT
      exact hT.symm
    unfold collectTargetsNoSelfCheck
    by_cases hteam : c.Team = team
    · rw [if_pos hteam, key]
      constructor
      · rintro ⟨h1, _, h2⟩; exact ⟨h1, h2⟩
      · rintro ⟨h1, T, h3, h4, h5⟩
        refine ⟨h1, ?_, T, h3, h4, h5⟩
        rintro rfl
        rw [hhead T h3] at h4; exact h4 hteam
    · rw [if_neg hteam]
      cases hal : c.IsAlive with
      | true =>
        simp only [Bool.not_true, Bool.false_eq_true, if_false, List.mem_cons, key]
        constructor
        · rintro (rfl | ⟨h1, _, h2⟩)
          · exact ⟨le_refl _, c, by simp, hteam, hal⟩
          · exact ⟨h1, h2⟩
        · rintro ⟨h1, h2⟩
          by_cases htj : t = j
          · exact Or.inl htj
          · exact Or.inr ⟨h1, htj, h2⟩
      | false =>
        simp only [Bool.not_false, if_true, key]
        constructor
        · rintro ⟨h1, _, h2⟩; exact ⟨h1, h2⟩
        · rintro ⟨h1, T, h3, h4, h5⟩
          refine ⟨h1, ?_, T, h3, h4, h5⟩
          rintro rfl
          rw [hhead T h3, hal] at h5; exact absurd h5 (by decide)

/-- Claim C20 (the self-exclusion test is redundant): for an attacker that is a
member of the roster, the target loop gives the same list with and without the
test `&Target == &Attacker`, the attacker being left out by the test on the
team; the list holds exactly the positions of the living members of the other
team, so that it is the same for two attackers of the same team. -/
theorem C20_self_exclusion_redundant (cs : List FCombatant) (a : Nat) (A : FCombatant)
    (hA : cs[a]? = some A) :
    collectTargets a A.Team 0 cs = collectTargetsNoSelfCheck A.Team 0 cs ∧
    a ∉ collectTargetsNoSelfCheck A.Team 0 cs ∧
    (∀ t, t ∈ collectTargetsNoSelfCheck A.Team 0 cs ↔
      ∃ T, cs[t]? = some T ∧ T.Team ≠ A.Team ∧ 0 < T.CurrentHP) ∧
    (∀ t, t ∈ collectTargets a A.Team 0 cs ↔
      ∃ T, cs[t]? = some T ∧ T.Team ≠ A.Team ∧ 0 < T.CurrentHP) ∧
    (∀ (b : Nat) (B : FCombatant), cs[b]? = some B → B.Team = A.Team →
      collectTargets b B.Team 0 cs = collectTargets a A.Team 0 cs) := by
  have heq : ∀ (b : Nat) (B : FCombatant), cs[b]? = some B →
      collectTargets b B.Team 0 cs = collectTargetsNoSelfCheck B.Team 0 cs := by
    intro b B hB
    apply collectTargets_eq_noSelfCheck
    intro T _ hT
    rw [Nat.sub_zero, hB] at hT
    simp only [Option.some.injEq] at hT
    rw [hT]
  have hmem : ∀ t, t ∈ collectTargetsNoSelfCheck A.Team 0 cs ↔
      ∃ T, cs[t]? = some T ∧ T.Team ≠ A.Team ∧ 0 < T.CurrentHP := by
    intro t
    rw [mem_collectTargetsNoSelfCheck]
    simp [FCombatant.IsAlive]
  refine ⟨heq a A hA, ?_, hmem, ?_, ?_⟩
  · intro hin
    obtain ⟨T, hT, hteam, _⟩ := (hmem a).1 hin
    rw [hA] at hT
    simp only [Option.some.injEq] at hT
    rw [hT] at hteam
    exact hteam rfl
  · intro t
    rw [heq a A hA]
    exact hmem t
  · intro b B hB hteam
    rw [heq b B hB, heq a A hA, hteam]

/-- Instance of C20 on the roster of the constructor. -/
theorem C20_self_exclusion_redundant_witness :
    initialRoster[2]? = some ⟨"Player2", 100, 100, 8, 15, ETeam.Players⟩ ∧
    collectTargetsNoSelfCheck ETeam.Players 0 initialRoster = [1, 3, 5, 7] ∧
    collectTargets 2 ETeam.Players 0 initialRoster =
      collectTargetsNoSelfCheck ETeam.Players 0 initialRoster :=
  ⟨by decide, by decide,
    (C20_self_exclusion_redundant initialRoster 2 ⟨"Player2", 100, 100, 8, 15, ETeam.Players⟩
      (by decide)).1⟩

end TurnBasedCombat
